import Mathlib

/-!
Verification of the translation engine in
`internal/dataplane/parser/translate.go` of the kubernetes-ingress-controller
repository.  The Go functions are shallowly embedded as pure Lean functions;
Go maps become association lists with explicit lookup/insert, the in-place
`sort.SliceStable` becomes an explicit stable insertion sort, and the
per-resource accumulation of routes into the service map becomes a fold over
an explicit list of route operations.
-/

namespace KIC

/-! ## Basic modelled types (kongstate / intstr / networking shapes) -/

inductive PortMode where
  | byName
  | byNumber
  | implicit
  deriving DecidableEq, Repr

/-- kongstate.PortDef: tagged port descriptor `{Mode, Name, Number}`. -/
structure PortDef where
  mode : PortMode
  name : String := ""
  number : Int := 0
  deriving DecidableEq, Repr

/-- Modelled from the spec: `kongstate.PortDef.CanonicalString` is not under
src/; the spec describes the port descriptor as a tagged union rendered to a
deterministic string (name for by-name, decimal number for by-number, empty
for implicit). -/
def PortDef.canonicalString (p : PortDef) : String :=
  match p.mode with
  | .byName => p.name
  | .byNumber => toString p.number
  | .implicit => ""

/-- intstr.IntOrString. -/
inductive IntOrString where
  | int (v : Int)
  | str (v : String)
  deriving DecidableEq, Repr

/-- intstr.IntOrString.String(): the string value, or the decimal rendering
of the int value. -/
def IntOrString.toStr : IntOrString → String
  | .int v => toString v
  | .str v => v

/-- translate.go `PortDefFromIntStr`. -/
def PortDefFromIntStr (is : IntOrString) : PortDef :=
  match is with
  | .str v => { mode := .byName, name := v }
  | .int v => { mode := .byNumber, number := v }

/-- networkingv1.ServiceBackendPort `{Name, Number}`. -/
structure ServiceBackendPort where
  name : String := ""
  number : Int := 0
  deriving DecidableEq, Repr

/-- translate.go `serviceBackendPortToStr`. -/
def serviceBackendPortToStr (port : ServiceBackendPort) : String :=
  if port.name ≠ "" then "pname-" ++ port.name
  else "pnum-" ++ toString port.number

/-- translate.go `PortDefFromServiceBackendPort`. -/
def PortDefFromServiceBackendPort (sbp : ServiceBackendPort) : PortDef :=
  if sbp.name ≠ "" then { mode := .byName, name := sbp.name }
  else if sbp.number ≠ 0 then { mode := .byNumber, number := sbp.number }
  else { mode := .implicit }

/-- util.K8sObjectInfo as used by `util.FromK8sObject` (provenance
back-reference: namespace and name of the originating resource). -/
structure K8sObjectInfo where
  ns : String
  name : String
  deriving DecidableEq, Repr

/-- kongstate.Route = provenance + the kong.Route fields assigned by
translate.go.  Pointer-valued kong fields that a given normalizer leaves
unset are `none` / `[]`. -/
structure Route where
  ingress : K8sObjectInfo
  name : String
  paths : List String := []
  stripPath : Option Bool := none
  preserveHost : Option Bool := none
  protocols : List String := []
  regexPriority : Option Int := none
  requestBuffering : Option Bool := none
  responseBuffering : Option Bool := none
  hosts : List String := []
  snis : List String := []
  destinations : List Int := []
  deriving DecidableEq, Repr

/-- kong.Plugin as built by `fromKnativeIngress`: name "request-transformer"
and `Config{"add": {"headers": headers}}`; only the header list varies. -/
structure Plugin where
  name : String
  addHeaders : List String
  deriving DecidableEq, Repr

/-- kongstate.ServiceBackend. -/
structure ServiceBackend where
  name : String
  port : PortDef
  deriving DecidableEq, Repr

/-- The kong.Service fields assigned by translate.go. -/
structure KongService where
  name : String
  host : String
  port : Int
  protocol : String
  path : Option String := none
  connectTimeout : Option Int := none
  readTimeout : Option Int := none
  writeTimeout : Option Int := none
  retries : Option Int := none
  deriving DecidableEq, Repr

/-- kongstate.Service. -/
structure Service where
  service : KongService
  ns : String
  backend : ServiceBackend
  routes : List Route := []
  plugins : List Plugin := []
  deriving DecidableEq, Repr

/-! ## The service map (Go `map[string]kongstate.Service`)

Modelled as an association list with first-match lookup and replace-first
insert; the normalizers only ever lookup, then store under the same key, so
this matches Go map semantics for every execution they perform. -/

abbrev SMap := List (String × Service)

def lookupS : SMap → String → Option Service
  | [], _ => none
  | (k, v) :: m, key => if k = key then some v else lookupS m key

def insertS : SMap → String → Service → SMap
  | [], key, v => [(key, v)]
  | (k, w) :: m, key, v =>
    if k = key then (key, v) :: m else (k, w) :: insertS m key v

def keysOf (m : SMap) : List String := m.map Prod.fst

/-- One iteration of the body shared by every normalizer loop:
`service, ok := result.ServiceNameToServices[serviceName]; if !ok { service =
fresh }; service.Routes = append(service.Routes, r);
result.ServiceNameToServices[serviceName] = service`. -/
structure RouteOp where
  key : String
  fresh : Service
  route : Route
  deriving DecidableEq, Repr

def addRouteOp (m : SMap) (op : RouteOp) : SMap :=
  let svc := (lookupS m op.key).getD op.fresh
  insertS m op.key { svc with routes := svc.routes ++ [op.route] }

def applyOps (m : SMap) (ops : List RouteOp) : SMap := ops.foldl addRouteOp m

/-! ## TLS / SNI collector -/

/-- networkingv1beta1.IngressTLS (same shape in v1): hosts + secret name. -/
structure IngressTLS where
  hosts : List String := []
  secretName : String := ""
  deriving DecidableEq, Repr

abbrev SNIMap := List (String × List String)

def lookupSNI : SNIMap → String → Option (List String)
  | [], _ => none
  | (k, v) :: m, key => if k = key then some v else lookupSNI m key

def insertSNI : SNIMap → String → List String → SNIMap
  | [], key, v => [(key, v)]
  | (k, w) :: m, key, v =>
    if k = key then (key, v) :: m else (k, w) :: insertSNI m key v

/-- Modelled from the spec: `SecretNameToSNIs.addFromIngressV1beta1TLS` /
`addFromIngressV1TLS` are not under src/.  Per §4.5, for every TLS/host
declaration add `(secretName, hostname)` to the binding set; duplicate
hostnames collapse (set semantics).  The key is `namespace/secretName`. -/
def addFromTLS (m : SNIMap) (tlsList : List IngressTLS) (ns : String) : SNIMap :=
  tlsList.foldl
    (fun acc t =>
      let key := ns ++ "/" ++ t.secretName
      let cur := (lookupSNI acc key).getD []
      insertSNI acc key
        (t.hosts.foldl (fun hs h => if h ∈ hs then hs else hs ++ [h]) cur))
    m

/-- ingressRules (translate.go result type). -/
structure ingressRules where
  serviceNameToServices : SMap
  secretNameToSNIs : SNIMap
  deriving DecidableEq, Repr

def newIngressRules : ingressRules :=
  { serviceNameToServices := [], secretNameToSNIs := [] }

/-! ## Constants defined elsewhere in the parser package (not under src/) -/

/-- Modelled from the spec: parser package constant (default HTTP port). -/
def DefaultHTTPPort : Int := 80

/-- Modelled from the spec: parser package constant (default timeouts, ms). -/
def DefaultServiceTimeout : Int := 60000

/-- Modelled from the spec: parser package constant (default retries). -/
def DefaultRetries : Int := 5

/-- Modelled from the spec: kind prefix constant `IngressV1RoutePrefix`
(exact value defined outside src/; no claim depends on it). -/
def ingressV1RoutePfx : String := "ingressv1"

/-- Modelled from the spec: kind prefix constant `IngressV1Beta1RoutePrefix`. -/
def ingressV1Beta1RoutePfx : String := "ingressv1beta1"

/-- Modelled from the spec: kind prefix constant `TCPIngressV1Beta1RoutePrefix`. -/
def tcpIngressV1Beta1RoutePfx : String := "tcpingressv1beta1"

/-- Modelled from the spec: kind prefix constant
`KnativeIngressV1Alpha1RoutePrefix`. -/
def knativeIngressV1Alpha1RoutePfx : String := "knativev1alpha1"

/-- Modelled from the spec: `util.IsValidPort` is not under src/; a port is
valid when strictly between 0 and 65536. -/
def IsValidPort (p : Int) : Bool := 0 < p && p < 65536

/-! ## Stable sort by creation timestamp (`sort.SliceStable`)

`sort.SliceStable(l, func(i,j) { l[i].CreationTimestamp.Before(l[j]...) })`
sorts in place, ascending by creation time, ties keeping original order.
The output of a stable sort under a strict weak order is unique, so the
insertion sort below computes exactly the slice contents after the call. -/

def insertByTs {α : Type} (key : α → Nat) (x : α) : List α → List α
  | [] => [x]
  | y :: ys => if key y < key x then y :: insertByTs key x ys else x :: y :: ys

def sortByTs {α : Type} (key : α → Nat) : List α → List α
  | [] => []
  | x :: xs => insertByTs key x (sortByTs key xs)

/-! ### Generic lemmas about the sort and the service-map fold -/

theorem insertByTs_perm {α : Type} (key : α → Nat) (x : α) (l : List α) :
    (insertByTs key x l).Perm (x :: l) := by
  induction l with
  | nil => simp [insertByTs]
  | cons y ys ih =>
    simp only [insertByTs]
    by_cases h : key y < key x
    · simp only [h, if_pos]
      exact ((ih.cons y).trans (List.Perm.swap x y ys))
    · simp [h]

theorem sortByTs_perm {α : Type} (key : α → Nat) (l : List α) :
    (sortByTs key l).Perm l := by
  induction l with
  | nil => simp [sortByTs]
  | cons x xs ih =>
    exact (insertByTs_perm key x (sortByTs key xs)).trans (ih.cons x)

theorem insertByTs_pairwise {α : Type} (key : α → Nat) (x : α) (l : List α)
    (h : l.Pairwise (fun a b => key a ≤ key b)) :
    (insertByTs key x l).Pairwise (fun a b => key a ≤ key b) := by
  induction l with
  | nil => simp [insertByTs]
  | cons y ys ih =>
    rcases List.pairwise_cons.mp h with ⟨hy, hys⟩
    simp only [insertByTs]
    by_cases hlt : key y < key x
    · simp only [hlt, if_pos]
      refine List.pairwise_cons.mpr ⟨?_, ih hys⟩
      intro z hz
      have hz2 : z = x ∨ z ∈ ys := by
        simpa using (insertByTs_perm key x ys).mem_iff.mp hz
      rcases hz2 with rfl | hz2
      · omega
      · exact hy z hz2
    · simp only [hlt, if_false]
      refine List.pairwise_cons.mpr ⟨?_, h⟩
      intro z hz
      have hz2 : z = y ∨ z ∈ ys := by simpa using hz
      rcases hz2 with rfl | hz2
      · omega
      · exact le_trans (by omega) (hy z hz2)

theorem sortByTs_pairwise {α : Type} (key : α → Nat) (l : List α) :
    (sortByTs key l).Pairwise (fun a b => key a ≤ key b) := by
  induction l with
  | nil => simp [sortByTs]
  | cons x xs ih => exact insertByTs_pairwise key x (sortByTs key xs) ih

theorem sortByTs_eq_of_pairwise {α : Type} (key : α → Nat) (l : List α)
    (h : l.Pairwise (fun a b => key a ≤ key b)) : sortByTs key l = l := by
  induction l with
  | nil => rfl
  | cons x xs ih =>
    rcases List.pairwise_cons.mp h with ⟨hx, hxs⟩
    rw [sortByTs, ih hxs]
    cases xs with
    | nil => rfl
    | cons y ys =>
      have : ¬ key y < key x := by
        have := hx y (by simp)
        omega
      simp [insertByTs, this]

/-- The head of the sorted list has minimal key among all elements. -/
theorem sortByTs_head_min {α : Type} (key : α → Nat) (l : List α) (d : α)
    (ds : List α) (h : sortByTs key l = d :: ds) :
    ∀ x ∈ l, key d ≤ key x := by
  intro x hx
  have hmem : x ∈ sortByTs key l := (sortByTs_perm key l).mem_iff.mpr hx
  rw [h] at hmem
  have hm2 : x = d ∨ x ∈ ds := by simpa using hmem
  rcases hm2 with rfl | hm2
  · exact le_rfl
  · have hp := sortByTs_pairwise key l
    rw [h] at hp
    exact (List.pairwise_cons.mp hp).1 x hm2

/-! ### Lookup / insert lemmas -/

theorem lookupS_insertS_self (m : SMap) (k : String) (v : Service) :
    lookupS (insertS m k v) k = some v := by
  induction m with
  | nil => simp [insertS, lookupS]
  | cons p m ih =>
    obtain ⟨a, w⟩ := p
    by_cases h : a = k
    · simp [insertS, lookupS, h]
    · simp [insertS, lookupS, h, ih]

theorem lookupS_insertS_ne (m : SMap) (k k' : String) (v : Service)
    (h : k' ≠ k) : lookupS (insertS m k v) k' = lookupS m k' := by
  induction m with
  | nil => simp [insertS, lookupS, Ne.symm h]
  | cons p m ih =>
    obtain ⟨a, w⟩ := p
    by_cases ha : a = k
    · subst ha
      simp [insertS, lookupS, Ne.symm h]
    · by_cases ha2 : a = k'
      · simp [insertS, lookupS, ha, ha2, h]
      · simp [insertS, lookupS, ha, ha2, ih]

theorem keysOf_insertS (m : SMap) (k : String) (v : Service) :
    keysOf (insertS m k v)
      = if k ∈ keysOf m then keysOf m else keysOf m ++ [k] := by
  induction m with
  | nil => simp [insertS, keysOf]
  | cons p m ih =>
    obtain ⟨a, w⟩ := p
    by_cases ha : a = k
    · subst ha
      simp [insertS, keysOf]
    · have h1 : keysOf (insertS ((a, w) :: m) k v) = a :: keysOf (insertS m k v) := by
        simp [insertS, ha, keysOf]
      have h2 : keysOf ((a, w) :: m) = a :: keysOf m := by simp [keysOf]
      by_cases hk : k ∈ keysOf m
      · rw [h1, ih, if_pos hk, h2, if_pos (by simp [hk])]
      · have hk2 : k ∉ a :: keysOf m := by simp [Ne.symm ha, hk]
        rw [h1, ih, if_neg hk, h2, if_neg hk2]
        simp

theorem keysOf_nodup_insertS (m : SMap) (k : String) (v : Service)
    (h : (keysOf m).Nodup) : (keysOf (insertS m k v)).Nodup := by
  rw [keysOf_insertS]
  by_cases hk : k ∈ keysOf m
  · simpa [hk] using h
  · simp only [hk, if_false]
    simpa [List.nodup_append] using ⟨h, fun hh => hk hh⟩

theorem keysOf_nodup_addRouteOp (m : SMap) (op : RouteOp)
    (h : (keysOf m).Nodup) : (keysOf (addRouteOp m op)).Nodup := by
  unfold addRouteOp
  exact keysOf_nodup_insertS _ _ _ h

theorem keysOf_nodup_applyOps (ops : List RouteOp) (m : SMap)
    (h : (keysOf m).Nodup) : (keysOf (applyOps m ops)).Nodup := by
  induction ops generalizing m with
  | nil => exact h
  | cons op ops ih =>
    exact ih (addRouteOp m op) (keysOf_nodup_addRouteOp m op h)

/-- Full characterization of a key's entry after running a list of route
operations: the service-level fields come from the map's previous entry (or,
if absent, from the first operation touching the key), and the routes are
those of all operations touching the key, in order. -/
theorem lookupS_applyOps (ops : List RouteOp) (m : SMap) (k : String) :
    lookupS (applyOps m ops) k =
      match lookupS m k, ops.filter (fun o => o.key = k) with
      | some svc, fs => some { svc with routes := svc.routes ++ fs.map RouteOp.route }
      | none, [] => none
      | none, o :: os =>
          some { o.fresh with
                 routes := o.fresh.routes ++ (o :: os).map RouteOp.route } := by
  induction ops generalizing m with
  | nil =>
    cases h : lookupS m k with
    | none => simp [applyOps, h]
    | some svc => simp [applyOps, h]
  | cons op ops ih =>
    have step : applyOps m (op :: ops) = applyOps (addRouteOp m op) ops := rfl
    rw [step, ih]
    by_cases hk : op.key = k
    · subst hk
      cases h : lookupS m op.key with
      | none =>
        have h1 : lookupS (addRouteOp m op) op.key =
            some { op.fresh with routes := op.fresh.routes ++ [op.route] } := by
          unfold addRouteOp
          rw [h]
          simpa using lookupS_insertS_self m op.key _
        rw [h1]
        simp [List.filter]
      | some svc =>
        have h1 : lookupS (addRouteOp m op) op.key =
            some { svc with routes := svc.routes ++ [op.route] } := by
          unfold addRouteOp
          rw [h]
          simpa using lookupS_insertS_self m op.key _
        rw [h1]
        simp [List.filter]
    · have h1 : lookupS (addRouteOp m op) k = lookupS m k := by
        unfold addRouteOp
        exact lookupS_insertS_ne _ _ _ _ (fun hh => hk hh.symm)
      rw [h1]
      have : (List.filter (fun o => decide (o.key = k)) (op :: ops)) =
          List.filter (fun o => decide (o.key = k)) ops := by
        simp [List.filter, hk]
      rw [this]

/-! ### Route multiset lemmas -/

/-- All routes stored in the service map, as a multiset. -/
def routesM (m : SMap) : Multiset Route :=
  (m.map (fun p => (p.2.routes : Multiset Route))).sum

theorem routesM_insertS_some (m : SMap) (k : String) (svc v : Service)
    (h : lookupS m k = some svc) :
    routesM (insertS m k v) + (svc.routes : Multiset Route)
      = routesM m + (v.routes : Multiset Route) := by
  induction m with
  | nil => simp [lookupS] at h
  | cons p m ih =>
    obtain ⟨a, w⟩ := p
    by_cases ha : a = k
    · subst ha
      simp [lookupS] at h
      subst h
      simp [insertS, routesM]
      abel
    · simp [lookupS, ha] at h
      simp [insertS, routesM, ha] at ih ⊢
      have := ih h
      rw [add_assoc, this]
      abel

theorem routesM_insertS_none (m : SMap) (k : String) (v : Service)
    (h : lookupS m k = none) :
    routesM (insertS m k v) = routesM m + (v.routes : Multiset Route) := by
  induction m with
  | nil => simp [insertS, routesM]
  | cons p m ih =>
    obtain ⟨a, w⟩ := p
    by_cases ha : a = k
    · simp [lookupS, ha] at h
    · simp [lookupS, ha] at h
      simp [insertS, routesM, ha] at ih ⊢
      rw [ih h]
      abel

theorem routesM_addRouteOp (m : SMap) (op : RouteOp)
    (h : op.fresh.routes = []) :
    routesM (addRouteOp m op) = routesM m + {op.route} := by
  cases hl : lookupS m op.key with
  | none =>
    have ha : addRouteOp m op
        = insertS m op.key { op.fresh with routes := op.fresh.routes ++ [op.route] } := by
      unfold addRouteOp
      rw [hl]
      rfl
    rw [ha, routesM_insertS_none m op.key _ hl]
    simp [h]
  | some svc =>
    have ha : addRouteOp m op
        = insertS m op.key { svc with routes := svc.routes ++ [op.route] } := by
      unfold addRouteOp
      rw [hl]
      rfl
    rw [ha]
    have h2 := routesM_insertS_some m op.key svc
      { svc with routes := svc.routes ++ [op.route] } hl
    have h3 : routesM (insertS m op.key { svc with routes := svc.routes ++ [op.route] })
          + (svc.routes : Multiset Route)
        = (routesM m + {op.route}) + (svc.routes : Multiset Route) := by
      rw [h2]
      have : ((svc.routes ++ [op.route] : List Route) : Multiset Route)
          = (svc.routes : Multiset Route) + {op.route} := by
        rw [← Multiset.coe_singleton, ← Multiset.coe_add]
      simp only [this]
      abel
    exact add_right_cancel h3

theorem routesM_applyOps (ops : List RouteOp) (m : SMap)
    (h : ∀ op ∈ ops, op.fresh.routes = []) :
    routesM (applyOps m ops)
      = routesM m + ((ops.map RouteOp.route : List Route) : Multiset Route) := by
  induction ops generalizing m with
  | nil => simp [applyOps]
  | cons op ops ih =>
    have step : applyOps m (op :: ops) = applyOps (addRouteOp m op) ops := rfl
    rw [step, ih _ (fun o ho => h o (by simp [ho]))]
    rw [routesM_addRouteOp m op (h op (by simp))]
    simp
    abel

/-! ## Path & Priority Translator (`pathsFromK8s`, `priorityForPath`)

`networkingv1.PathType` is a Go string type, so the path type is modelled as
a `String`; the three defined enumerators are the literals below, and any
other string is an unknown path type (`pathsFromK8s` errors on it, and the
Go map `priorityForPath` yields the zero value 0). -/

/-- Scan for two adjacent '/' characters. -/
def containsDoubleSlashAux : List Char → Bool
  | c1 :: c2 :: rest => (c1 = '/' && c2 = '/') || containsDoubleSlashAux (c2 :: rest)
  | _ => false

/-- strings.Contains(path, "//"). -/
def containsDoubleSlash (s : String) : Bool :=
  containsDoubleSlashAux s.data

/-- strings.TrimLeft(path, "/"). -/
def trimLeftSlash (s : String) : String :=
  String.mk (s.toList.dropWhile (fun c => c = '/'))

/-- strings.Trim(path, "/") (leading and trailing). -/
def trimSlash (s : String) : String :=
  String.mk ((((s.toList.dropWhile (fun c => c = '/')).reverse).dropWhile
    (fun c => c = '/')).reverse)

/-- translate.go `pathsFromK8s`. -/
def pathsFromK8s (path : String) (pathType : String) :
    Except String (List String) :=
  if pathType = "Prefix" then
    let base := trimSlash path
    if base = "" then .ok ["/"]
    else .ok ["/" ++ base ++ "$", "/" ++ base ++ "/"]
  else if pathType = "Exact" then
    let relative := trimLeftSlash path
    .ok ["/" ++ relative ++ "$"]
  else if pathType = "ImplementationSpecific" then
    if path = "" then .ok ["/"]
    else .ok [path]
  else .error ("unknown pathType " ++ pathType)

/-- translate.go `priorityForPath` (a Go map; lookup of a key that is not
present yields the zero value 0). -/
def priorityForPath (pathType : String) : Int :=
  if pathType = "Exact" then 300
  else if pathType = "Prefix" then 200
  else if pathType = "ImplementationSpecific" then 100
  else 0

theorem pathsFromK8s_ok_cases (path pathType : String) (ps : List String)
    (h : pathsFromK8s path pathType = .ok ps) :
    pathType = "Prefix" ∨ pathType = "Exact"
      ∨ pathType = "ImplementationSpecific" := by
  by_cases h1 : pathType = "Prefix"
  · exact Or.inl h1
  by_cases h2 : pathType = "Exact"
  · exact Or.inr (Or.inl h2)
  by_cases h3 : pathType = "ImplementationSpecific"
  · exact Or.inr (Or.inr h3)
  · exfalso
    unfold pathsFromK8s at h
    simp [h1, h2, h3] at h

theorem priorityForPath_pos_of_ok (path pathType : String) (ps : List String)
    (h : pathsFromK8s path pathType = .ok ps) : 0 < priorityForPath pathType := by
  rcases pathsFromK8s_ok_cases path pathType ps h with h1 | h1 | h1 <;>
    simp [priorityForPath, h1]

/-! ## Traffic-Split Selector (`knativeSelectSplit`) -/

/-- knative IngressBackendSplit: embedded IngressBackend
(namespace/name/port) + weight + header metadata.  `appendHeaders` is a Go
map; it is modelled as its list of entries in iteration order. -/
structure IngressBackendSplit where
  serviceNamespace : String := ""
  serviceName : String := ""
  servicePort : IntOrString := .int 0
  percent : Int := 0
  appendHeaders : List (String × String) := []
  deriving DecidableEq, Repr

/-- The loop of `knativeSelectSplit` starting at index 1: `res` and
`maxPercentage` carried exactly as in the source (`maxPercentage` is always
`res.Percent`). -/
def selectSplitLoop : IngressBackendSplit → Int → List IngressBackendSplit →
    IngressBackendSplit × Int
  | res, maxP, [] => (res, maxP)
  | res, maxP, x :: xs =>
    if x.percent > maxP then selectSplitLoop x x.percent xs
    else selectSplitLoop res maxP xs

/-- translate.go `knativeSelectSplit`: empty input gives the zero-value
split; otherwise scan from the second element, replacing the result only on
a strictly greater weight (the `len == 1` early return coincides with the
loop doing nothing). -/
def knativeSelectSplit (splits : List IngressBackendSplit) :
    IngressBackendSplit :=
  match splits with
  | [] => {}
  | s :: rest => (selectSplitLoop s s.percent rest).1

/-- The scan returns the leftmost maximum: the input decomposes around the
result, everything before it strictly lighter, everything after it not
heavier. -/
theorem selectSplitLoop_spec (xs : List IngressBackendSplit)
    (res : IngressBackendSplit) :
    ∃ l1 r l2, res :: xs = l1 ++ r :: l2
      ∧ (selectSplitLoop res res.percent xs).1 = r
      ∧ (∀ y ∈ l1, y.percent < r.percent)
      ∧ (∀ y ∈ l2, y.percent ≤ r.percent) := by
  induction xs generalizing res with
  | nil =>
    exact ⟨[], res, [], by simp, by simp [selectSplitLoop], by simp, by simp⟩
  | cons x xs ih =>
    by_cases hx : x.percent > res.percent
    · obtain ⟨l1, r, l2, hdec, hres, hl1, hl2⟩ := ih x
      have hstep : (selectSplitLoop res res.percent (x :: xs)).1 = r := by
        simp [selectSplitLoop, hx, hres]
      have hxr : x.percent ≤ r.percent := by
        cases l1 with
        | nil =>
          have h1 : x = r ∧ xs = l2 := by simpa using hdec
          exact le_of_eq (congrArg IngressBackendSplit.percent h1.1)
        | cons a as =>
          have h1 : x = a ∧ xs = as ++ r :: l2 := by simpa using hdec
          exact le_of_lt (hl1 x (by simp [h1.1]))
      refine ⟨res :: l1, r, l2, by simp [hdec], hstep, ?_, hl2⟩
      intro y hy
      have hy2 : y = res ∨ y ∈ l1 := by simpa using hy
      rcases hy2 with rfl | hy2
      · omega
      · exact hl1 y hy2
    · obtain ⟨l1, r, l2, hdec, hres, hl1, hl2⟩ := ih res
      have hstep : (selectSplitLoop res res.percent (x :: xs)).1 = r := by
        simp [selectSplitLoop, hx, hres]
      cases l1 with
      | nil =>
        have h1 : res = r ∧ xs = l2 := by simpa using hdec
        refine ⟨[], r, x :: l2, by simp [h1.1, h1.2], hstep, by simp, ?_⟩
        intro y hy
        have hy2 : y = x ∨ y ∈ l2 := by simpa using hy
        rcases hy2 with rfl | hy2
        · have hpr : res.percent = r.percent :=
            congrArg IngressBackendSplit.percent h1.1
          omega
        · exact hl2 y hy2
      | cons a as =>
        have h1 : res = a ∧ xs = as ++ r :: l2 := by simpa using hdec
        have hres_lt : res.percent < r.percent := by
          rw [h1.1]
          exact hl1 a (by simp)
        refine ⟨res :: x :: as, r, l2, by simp [h1.2], hstep, ?_, hl2⟩
        intro y hy
        have hy2 : y = res ∨ y = x ∨ y ∈ as := by simpa using hy
        rcases hy2 with rfl | rfl | hy2
        · exact hres_lt
        · omega
        · exact hl1 y (by simp [hy2])

/-! ## Claim C1 -/

/-- C1: the Path & Priority Translator maps path "/foo" with type Exact to
the single pattern "/foo$" with priority 300; "/foo" with type Prefix to the
two patterns "/foo$" and "/foo/" with priority 200; "" with type Prefix to
the single pattern "/" with priority 200; "" with type
ImplementationSpecific to "/" and any other ImplementationSpecific path to
itself unchanged, with priority 100; and Exact(300) > Prefix(200) >
ImplementationSpecific(100). -/
theorem c1_path_priority_table :
    pathsFromK8s ("/foo") ("Exact") = .ok ["/foo$"]
    ∧ priorityForPath ("Exact") = 300
    ∧ pathsFromK8s ("/foo") ("Prefix") = .ok ["/foo$", "/foo/"]
    ∧ priorityForPath ("Prefix") = 200
    ∧ pathsFromK8s ("") ("Prefix") = .ok ["/"]
    ∧ pathsFromK8s ("") ("ImplementationSpecific") = .ok ["/"]
    ∧ (∀ p : String, p ≠ "" →
        pathsFromK8s p ("ImplementationSpecific") = .ok [p])
    ∧ priorityForPath ("ImplementationSpecific") = 100
    ∧ priorityForPath ("Exact") > priorityForPath ("Prefix")
    ∧ priorityForPath ("Prefix") > priorityForPath ("ImplementationSpecific") := by
  refine ⟨rfl, by decide, rfl, by decide, rfl, rfl,
    ?_, by decide, by decide, by decide⟩
  intro p hp
  unfold pathsFromK8s
  rw [if_neg (by decide), if_neg (by decide), if_pos rfl, if_neg hp]

/-- Witness for C1: the universally quantified ImplementationSpecific case
evaluated at the concrete nonempty path "/bar". -/
theorem c1_path_priority_table_witness :
    pathsFromK8s ("/bar") ("ImplementationSpecific") = .ok ["/bar"] :=
  c1_path_priority_table.2.2.2.2.2.2.1 ("/bar") (by decide)

/-! ## Claim C6 -/

/-- C6: the Traffic-Split Selector returns the zero-value backend for the
empty list, the sole candidate for a singleton list, and otherwise the
leftmost candidate whose weight is strictly greater than every earlier
weight and not less than any later weight (maximum, first-seen wins on
ties); {(A,20),(B,70),(C,10)} selects B and {(A,50),(B,50)} selects A. -/
theorem c6_knativeSelectSplit_leftmost_max :
    (knativeSelectSplit [] = ({} : IngressBackendSplit))
    ∧ (∀ s : IngressBackendSplit, knativeSelectSplit [s] = s)
    ∧ (∀ (s : IngressBackendSplit) (rest : List IngressBackendSplit),
        ∃ l1 r l2, s :: rest = l1 ++ r :: l2
          ∧ knativeSelectSplit (s :: rest) = r
          ∧ (∀ y ∈ l1, y.percent < r.percent)
          ∧ (∀ y ∈ l2, y.percent ≤ r.percent))
    ∧ knativeSelectSplit
        [{ serviceName := "A", percent := 20 },
         { serviceName := "B", percent := 70 },
         { serviceName := "C", percent := 10 }]
      = { serviceName := "B", percent := 70 }
    ∧ knativeSelectSplit
        [{ serviceName := "A", percent := 50 },
         { serviceName := "B", percent := 50 }]
      = { serviceName := "A", percent := 50 } := by
  refine ⟨rfl, fun s => rfl, ?_, by decide, by decide⟩
  intro s rest
  exact selectSplitLoop_spec rest s

/-- Witness for C6: the general leftmost-max clause evaluated at the
concrete tie {(A,50),(B,50)}, and the singleton clause at a concrete
candidate. -/
theorem c6_knativeSelectSplit_leftmost_max_witness :
    knativeSelectSplit [{ serviceName := "X", percent := 5 }]
      = { serviceName := "X", percent := 5 } :=
  c6_knativeSelectSplit_leftmost_max.2.1 { serviceName := "X", percent := 5 }

/-! ## Knative normalizer (`fromKnativeIngress`)

`getUniqIDForRouteConfig` is not under src/; per §4.2 it is a deterministic
content hash that can also fail (the error branch skips the rule).  Every
normalizer is therefore parameterized by a `hash` function standing for it:
`none` models the error return. -/

structure KnativeHTTPPath where
  path : String := ""
  appendHeaders : List (String × String) := []
  splits : List IngressBackendSplit := []
  deriving DecidableEq, Repr

structure KnativeRule where
  hosts : List String := []
  http : Option (List KnativeHTTPPath) := none
  deriving DecidableEq, Repr

structure KnativeTLS where
  hosts : List String := []
  secretName : String := ""
  deriving DecidableEq, Repr

/-- knative Ingress (Spec.TLS / Spec.Rules inlined). -/
structure KnativeIngress where
  ns : String
  name : String
  creationTimestamp : Nat := 0
  tls : List KnativeTLS := []
  rules : List KnativeRule := []
  deriving DecidableEq, Repr

/-- Modelled from the spec: `knativeIngressToNetworkingTLS` is not under
src/; it converts knative TLS entries to networking ones preserving hosts
and secret name. -/
def knativeIngressToNetworkingTLS (tls : List KnativeTLS) : List IngressTLS :=
  tls.map (fun t => { hosts := t.hosts, secretName := t.secretName })

/-- The route-name prefix `fmt.Sprintf("%s.%s.%s.", KnativeIngress...Prefix,
ingress.Namespace, ingress.Name)`. -/
def knativeRoutePfxOf (ing : KnativeIngress) : String :=
  knativeIngressV1Alpha1RoutePfx ++ "." ++ ing.ns ++ "." ++ ing.name ++ "."

/-- Body of the per-path loop of `fromKnativeIngress` (translate.go
643-751): empty path becomes "/", sequential or hashed naming with the
collision fallback, route construction, split selection, and the service
op. -/
def knativePathOp (hash : KnativeRule → Option String) (flag : Bool)
    (ing : KnativeIngress) (used : List String) (i : Nat) (rule : KnativeRule)
    (j : Nat) (rp : KnativeHTTPPath) : Option RouteOp × List String :=
  let path := if rp.path = "" then "/" else rp.path
  let routeName := ing.ns ++ "." ++ ing.name ++ "." ++ (toString i ++ toString j)
  let named : Option (String × List String) :=
    if flag then
      match hash { rule with http := some [rp] } with
      | none => none
      | some h =>
        let rn := knativeRoutePfxOf ing ++ h
        let rn2 := if rn ∈ used then
            rn ++ "-" ++ toString i ++ "-" ++ toString j else rn
        some (rn2, rn2 :: used)
    else some (routeName, used)
  match named with
  | none => (none, used)
  | some (rn, usedNext) =>
    let r : Route :=
      { ingress := ⟨ing.ns, ing.name⟩, name := rn, paths := [path],
        stripPath := some false, preserveHost := some true,
        protocols := ["http", "https"], regexPriority := some 0,
        requestBuffering := some true, responseBuffering := some true,
        hosts := rule.hosts }
    let knativeBackend := knativeSelectSplit rp.splits
    let serviceName := knativeBackend.serviceNamespace ++ "."
      ++ knativeBackend.serviceName ++ "." ++ knativeBackend.servicePort.toStr
    let serviceHost := knativeBackend.serviceName ++ "."
      ++ knativeBackend.serviceNamespace ++ "."
      ++ knativeBackend.servicePort.toStr ++ ".svc"
    let headers := (knativeBackend.appendHeaders ++ rp.appendHeaders).map
      (fun p => p.1 ++ ":" ++ p.2)
    let fresh : Service :=
      { service :=
          { name := serviceName, host := serviceHost, port := DefaultHTTPPort,
            protocol := "http", path := some "/",
            connectTimeout := some DefaultServiceTimeout,
            readTimeout := some DefaultServiceTimeout,
            writeTimeout := some DefaultServiceTimeout,
            retries := some DefaultRetries },
        ns := ing.ns,
        backend := { name := knativeBackend.serviceName,
                     port := PortDefFromIntStr knativeBackend.servicePort },
        plugins := if headers ≠ [] then
            [{ name := "request-transformer", addHeaders := headers }] else [] }
    (some { key := serviceName, fresh := fresh, route := r }, usedNext)

def knativePathsLoop (hash : KnativeRule → Option String) (flag : Bool)
    (ing : KnativeIngress) :
    List String → Nat → KnativeRule → Nat → List KnativeHTTPPath →
    List RouteOp × List String
  | used, _, _, _, [] => ([], used)
  | used, i, rule, j, rp :: rest =>
    let s1 := knativePathOp hash flag ing used i rule j rp
    let s2 := knativePathsLoop hash flag ing s1.2 i rule (j + 1) rest
    (s1.1.toList ++ s2.1, s2.2)

def knativeRulesLoop (hash : KnativeRule → Option String) (flag : Bool)
    (ing : KnativeIngress) :
    List String → Nat → List KnativeRule → List RouteOp
  | _, _, [] => []
  | used, i, rule :: rest =>
    match rule.http with
    | none => knativeRulesLoop hash flag ing used (i + 1) rest
    | some paths =>
      let s := knativePathsLoop hash flag ing used i rule 0 paths
      s.1 ++ knativeRulesLoop hash flag ing s.2 (i + 1) rest

/-- Route ops generated for one knative ingress; `usedRouteNames` starts
fresh per resource (translate.go 637). -/
def processKnativeIngress (hash : KnativeRule → Option String) (flag : Bool)
    (ing : KnativeIngress) : List RouteOp :=
  knativeRulesLoop hash flag ing [] 0 ing.rules

/-- The rule ops of `fromKnativeIngress` over the sorted resource list. -/
def knativeOpsAll (hash : KnativeRule → Option String) (flag : Bool)
    (sorted : List KnativeIngress) : List RouteOp :=
  (sorted.map (processKnativeIngress hash flag)).flatten

/-- translate.go `fromKnativeIngress`. -/
def fromKnativeIngress (hash : KnativeRule → Option String)
    (ingressList : List KnativeIngress) (hashedRouteNames : Bool) :
    ingressRules :=
  let sorted := sortByTs (fun ing => ing.creationTimestamp) ingressList
  { serviceNameToServices :=
      applyOps [] (knativeOpsAll hash hashedRouteNames sorted),
    secretNameToSNIs :=
      sorted.foldl
        (fun m ing => addFromTLS m (knativeIngressToNetworkingTLS ing.tls) ing.ns)
        [] }

/-! ## TCP normalizer (`fromTCPIngressV1beta1`) -/

structure TCPIngressBackend where
  serviceName : String := ""
  servicePort : Int := 0
  deriving DecidableEq, Repr

structure TCPIngressRule where
  port : Int := 0
  host : String := ""
  backend : TCPIngressBackend := {}
  deriving DecidableEq, Repr

structure TCPIngress where
  ns : String
  name : String
  creationTimestamp : Nat := 0
  tls : List IngressTLS := []
  rules : List TCPIngressRule := []
  deriving DecidableEq, Repr

/-- Modelled from the spec: `tcpIngressToNetworkingTLS` is not under src/;
it converts TCPIngress TLS entries to networking ones preserving hosts and
secret name. -/
def tcpIngressToNetworkingTLS (tls : List IngressTLS) : List IngressTLS :=
  tls.map (fun t => { hosts := t.hosts, secretName := t.secretName })

def tcpRoutePfxOf (ing : TCPIngress) : String :=
  tcpIngressV1Beta1RoutePfx ++ "." ++ ing.ns ++ "." ++ ing.name ++ "."

/-- Body of the per-rule loop of `fromTCPIngressV1beta1` (translate.go
418-505).  Note the source order: the listen-port check comes first, then
naming (which registers the name in `usedRouteNames` even if the rule is
skipped later), then the backend-name and backend-port checks. -/
def tcpRuleOp (hash : TCPIngressRule → Option String) (flag : Bool)
    (ing : TCPIngress) (used : List String) (i : Nat) (rule : TCPIngressRule) :
    Option RouteOp × List String :=
  if ¬ IsValidPort rule.port then (none, used)
  else
    let routeName := ing.ns ++ "." ++ ing.name ++ "." ++ toString i
    let named : Option (String × List String) :=
      if flag then
        match hash rule with
        | none => none
        | some h =>
          let rn := tcpRoutePfxOf ing ++ h
          let rn2 := if rn ∈ used then rn ++ "-" ++ toString i else rn
          some (rn2, rn2 :: used)
      else some (routeName, used)
    match named with
    | none => (none, used)
    | some (rn, usedNext) =>
      let r : Route :=
        { ingress := ⟨ing.ns, ing.name⟩, name := rn,
          protocols := ["tcp", "tls"], destinations := [rule.port],
          snis := if rule.host ≠ "" then [rule.host] else [] }
      if rule.backend.serviceName = "" then (none, usedNext)
      else if ¬ IsValidPort rule.backend.servicePort then (none, usedNext)
      else
        let serviceName := ing.ns ++ "." ++ rule.backend.serviceName ++ "."
          ++ toString rule.backend.servicePort
        let fresh : Service :=
          { service :=
              { name := serviceName,
                host := rule.backend.serviceName ++ "." ++ ing.ns ++ "."
                  ++ toString rule.backend.servicePort ++ ".svc",
                port := DefaultHTTPPort, protocol := "tcp",
                connectTimeout := some DefaultServiceTimeout,
                readTimeout := some DefaultServiceTimeout,
                writeTimeout := some DefaultServiceTimeout,
                retries := some DefaultRetries },
            ns := ing.ns,
            backend := { name := rule.backend.serviceName,
                         port := { mode := .byNumber,
                                   number := rule.backend.servicePort } } }
        (some { key := serviceName, fresh := fresh, route := r }, usedNext)

def tcpRulesLoop (hash : TCPIngressRule → Option String) (flag : Bool)
    (ing : TCPIngress) :
    List String → Nat → List TCPIngressRule → List RouteOp
  | _, _, [] => []
  | used, i, rule :: rest =>
    let s := tcpRuleOp hash flag ing used i rule
    s.1.toList ++ tcpRulesLoop hash flag ing s.2 (i + 1) rest

def processTCPIngress (hash : TCPIngressRule → Option String) (flag : Bool)
    (ing : TCPIngress) : List RouteOp :=
  tcpRulesLoop hash flag ing [] 0 ing.rules

/-- The rule ops of `fromTCPIngressV1beta1` over the sorted resource
list. -/
def tcpOpsAll (hash : TCPIngressRule → Option String) (flag : Bool)
    (sorted : List TCPIngress) : List RouteOp :=
  (sorted.map (processTCPIngress hash flag)).flatten

/-- translate.go `fromTCPIngressV1beta1`. -/
def fromTCPIngressV1beta1 (hash : TCPIngressRule → Option String)
    (tcpIngressList : List TCPIngress) (hashedRouteNames : Bool) :
    ingressRules :=
  let sorted := sortByTs (fun ing => ing.creationTimestamp) tcpIngressList
  { serviceNameToServices :=
      applyOps [] (tcpOpsAll hash hashedRouteNames sorted),
    secretNameToSNIs :=
      sorted.foldl
        (fun m ing => addFromTLS m (tcpIngressToNetworkingTLS ing.tls) ing.ns)
        [] }

/-! ## HTTP ingress v1 normalizer (`fromIngressV1`) -/

structure IngressServiceBackend where
  name : String := ""
  port : ServiceBackendPort := {}
  deriving DecidableEq, Repr

structure IngressBackendV1 where
  service : IngressServiceBackend := {}
  deriving DecidableEq, Repr

structure HTTPIngressPathV1 where
  path : String := ""
  pathType : Option String := none
  backend : IngressBackendV1 := {}
  deriving DecidableEq, Repr

structure IngressRuleV1 where
  host : String := ""
  http : Option (List HTTPIngressPathV1) := none
  deriving DecidableEq, Repr

/-- networkingv1.Ingress (Spec.DefaultBackend / Spec.TLS / Spec.Rules
inlined). -/
structure IngressV1 where
  ns : String
  name : String
  creationTimestamp : Nat := 0
  defaultBackend : Option IngressBackendV1 := none
  tls : List IngressTLS := []
  rules : List IngressRuleV1 := []
  deriving DecidableEq, Repr

def ingressV1RoutePfxOf (ing : IngressV1) : String :=
  ingressV1RoutePfx ++ "." ++ ing.ns ++ "." ++ ing.name ++ "."

/-- Body of the per-path loop of `fromIngressV1` (translate.go 241-340):
"//" check, path-type defaulting, `pathsFromK8s` (error skips the rule),
sequential or hashed naming with collision fallback, route construction
with `priorityForPath`, and the service op keyed by
`namespace.serviceName.(pname-X|pnum-N)`. -/
def v1PathOp (hash : IngressRuleV1 → Option String) (flag : Bool)
    (ing : IngressV1) (used : List String) (i : Nat) (rule : IngressRuleV1)
    (j : Nat) (rp : HTTPIngressPathV1) : Option RouteOp × List String :=
  if containsDoubleSlash rp.path then (none, used)
  else
    let pathType := rp.pathType.getD ("ImplementationSpecific")
    match pathsFromK8s rp.path pathType with
    | .error _ => (none, used)
    | .ok paths =>
      let routeName := ing.ns ++ "." ++ ing.name ++ "." ++ (toString i ++ toString j)
      let named : Option (String × List String) :=
        if flag then
          match hash { rule with http := some [rp] } with
          | none => none
          | some h =>
            let rn := ingressV1RoutePfxOf ing ++ h
            let rn2 := if rn ∈ used then
                rn ++ "-" ++ toString i ++ "-" ++ toString j else rn
            some (rn2, rn2 :: used)
        else some (routeName, used)
      match named with
      | none => (none, used)
      | some (rn, usedNext) =>
        let r : Route :=
          { ingress := ⟨ing.ns, ing.name⟩, name := rn, paths := paths,
            stripPath := some false, preserveHost := some true,
            protocols := ["http", "https"],
            regexPriority := some (priorityForPath pathType),
            requestBuffering := some true, responseBuffering := some true,
            hosts := if rule.host ≠ "" then [rule.host] else [] }
        let port := PortDefFromServiceBackendPort rp.backend.service.port
        let serviceName := ing.ns ++ "." ++ rp.backend.service.name ++ "."
          ++ serviceBackendPortToStr rp.backend.service.port
        let fresh : Service :=
          { service :=
              { name := serviceName,
                host := rp.backend.service.name ++ "." ++ ing.ns ++ "."
                  ++ port.canonicalString ++ ".svc",
                port := DefaultHTTPPort, protocol := "http", path := some "/",
                connectTimeout := some DefaultServiceTimeout,
                readTimeout := some DefaultServiceTimeout,
                writeTimeout := some DefaultServiceTimeout,
                retries := some DefaultRetries },
            ns := ing.ns,
            backend := { name := rp.backend.service.name, port := port } }
        (some { key := serviceName, fresh := fresh, route := r }, usedNext)

def v1PathsLoop (hash : IngressRuleV1 → Option String) (flag : Bool)
    (ing : IngressV1) :
    List String → Nat → IngressRuleV1 → Nat → List HTTPIngressPathV1 →
    List RouteOp × List String
  | used, _, _, _, [] => ([], used)
  | used, i, rule, j, rp :: rest =>
    let s1 := v1PathOp hash flag ing used i rule j rp
    let s2 := v1PathsLoop hash flag ing s1.2 i rule (j + 1) rest
    (s1.1.toList ++ s2.1, s2.2)

def v1RulesLoop (hash : IngressRuleV1 → Option String) (flag : Bool)
    (ing : IngressV1) :
    List String → Nat → List IngressRuleV1 → List RouteOp
  | _, _, [] => []
  | used, i, rule :: rest =>
    match rule.http with
    | none => v1RulesLoop hash flag ing used (i + 1) rest
    | some paths =>
      let s := v1PathsLoop hash flag ing used i rule 0 paths
      s.1 ++ v1RulesLoop hash flag ing s.2 (i + 1) rest

def processIngressV1 (hash : IngressRuleV1 → Option String) (flag : Bool)
    (ing : IngressV1) : List RouteOp :=
  v1RulesLoop hash flag ing [] 0 ing.rules

/-- The wildcard route materialized for the winning default backend
(translate.go 376-388): name `namespace.name`, paths ["/"], no hosts. -/
def defaultRouteV1 (d : IngressV1) : Route :=
  { ingress := ⟨d.ns, d.name⟩, name := d.ns ++ "." ++ d.name, paths := ["/"],
    stripPath := some false, preserveHost := some true,
    protocols := ["http", "https"], regexPriority := some 0,
    requestBuffering := some true, responseBuffering := some true }

/-- Service key of a v1 default backend (translate.go 352-354: uses
`port.CanonicalString()`, unlike rule services). -/
def defaultKeyV1 (d : IngressV1) (b : IngressBackendV1) : String :=
  d.ns ++ "." ++ b.service.name ++ "."
    ++ (PortDefFromServiceBackendPort b.service.port).canonicalString

/-- The fresh service the v1 default-backend block creates when its key is
absent (translate.go 356-375; note: no `Path` field, and the host renders
`Port.Number` directly). -/
def defaultFreshV1 (d : IngressV1) (b : IngressBackendV1) : Service :=
  { service :=
      { name := defaultKeyV1 d b,
        host := b.service.name ++ "." ++ d.ns ++ "."
          ++ toString b.service.port.number ++ ".svc",
        port := DefaultHTTPPort, protocol := "http",
        connectTimeout := some DefaultServiceTimeout,
        readTimeout := some DefaultServiceTimeout,
        writeTimeout := some DefaultServiceTimeout,
        retries := some DefaultRetries },
    ns := d.ns,
    backend := { name := b.service.name,
                 port := PortDefFromServiceBackendPort b.service.port } }

/-- The single route op of the v1 default-backend block. -/
def defaultOpV1 (d : IngressV1) (b : IngressBackendV1) : RouteOp :=
  { key := defaultKeyV1 d b, fresh := defaultFreshV1 d b,
    route := defaultRouteV1 d }

/-- The default-backend block of `fromIngressV1` (translate.go 348-391):
only the head of the sorted candidate list is materialized. -/
def defaultOpsV1 : List IngressV1 → List RouteOp
  | [] => []
  | d :: _ =>
    match d.defaultBackend with
    | none => []
    | some b => [defaultOpV1 d b]

/-- The rule ops of `fromIngressV1` over the sorted resource list. -/
def v1RuleOpsAll (hash : IngressRuleV1 → Option String) (flag : Bool)
    (sorted : List IngressV1) : List RouteOp :=
  (sorted.map (processIngressV1 hash flag)).flatten

/-- The default-backend candidates of `fromIngressV1`: the sorted input is
scanned in order, resources with a default backend are collected, and the
candidate list is stably sorted again (translate.go 344-346; a no-op since
it is already sorted). -/
def v1SortedDefaults (l : List IngressV1) : List IngressV1 :=
  sortByTs (fun ing => ing.creationTimestamp)
    ((sortByTs (fun ing => ing.creationTimestamp) l).filter
      (fun ing => ing.defaultBackend.isSome))

/-- translate.go `fromIngressV1`. -/
def fromIngressV1 (hash : IngressRuleV1 → Option String)
    (ingressList : List IngressV1) (hashedRouteNames : Bool) : ingressRules :=
  let sorted := sortByTs (fun ing => ing.creationTimestamp) ingressList
  { serviceNameToServices :=
      applyOps [] (v1RuleOpsAll hash hashedRouteNames sorted
        ++ defaultOpsV1 (v1SortedDefaults ingressList)),
    secretNameToSNIs :=
      sorted.foldl (fun m ing => addFromTLS m ing.tls ing.ns) [] }

/-! ## Legacy HTTP ingress normalizer (`fromIngressV1beta1`) -/

structure IngressBackendB1 where
  serviceName : String := ""
  servicePort : IntOrString := .int 0
  deriving DecidableEq, Repr

structure HTTPIngressPathB1 where
  path : String := ""
  pathType : Option String := none
  backend : IngressBackendB1 := {}
  deriving DecidableEq, Repr

structure IngressRuleB1 where
  host : String := ""
  http : Option (List HTTPIngressPathB1) := none
  deriving DecidableEq, Repr

/-- networkingv1beta1.Ingress (Spec.Backend / Spec.TLS / Spec.Rules
inlined). -/
structure IngressV1beta1 where
  ns : String
  name : String
  creationTimestamp : Nat := 0
  backend : Option IngressBackendB1 := none
  tls : List IngressTLS := []
  rules : List IngressRuleB1 := []
  deriving DecidableEq, Repr

def ingressB1RoutePfxOf (ing : IngressV1beta1) : String :=
  ingressV1Beta1RoutePfx ++ "." ++ ing.ns ++ "." ++ ing.name ++ "."

/-- Body of the per-path loop of `fromIngressV1beta1` (translate.go
58-154): "//" check, empty path becomes "/", naming as in v1, and a route
carrying the literal path with `RegexPriority` 0 — the legacy shape ignores
the rule path's path type entirely. -/
def b1PathOp (hash : IngressRuleB1 → Option String) (flag : Bool)
    (ing : IngressV1beta1) (used : List String) (i : Nat)
    (rule : IngressRuleB1) (j : Nat) (rp : HTTPIngressPathB1) :
    Option RouteOp × List String :=
  if containsDoubleSlash rp.path then (none, used)
  else
    let path := if rp.path = "" then "/" else rp.path
    let routeName := ing.ns ++ "." ++ ing.name ++ "." ++ (toString i ++ toString j)
    let named : Option (String × List String) :=
      if flag then
        match hash { rule with http := some [rp] } with
        | none => none
        | some h =>
          let rn := ingressB1RoutePfxOf ing ++ h
          let rn2 := if rn ∈ used then
              rn ++ "-" ++ toString i ++ "-" ++ toString j else rn
          some (rn2, rn2 :: used)
      else some (routeName, used)
    match named with
    | none => (none, used)
    | some (rn, usedNext) =>
      let r : Route :=
        { ingress := ⟨ing.ns, ing.name⟩, name := rn, paths := [path],
          stripPath := some false, preserveHost := some true,
          protocols := ["http", "https"], regexPriority := some 0,
          requestBuffering := some true, responseBuffering := some true,
          hosts := if rule.host ≠ "" then [rule.host] else [] }
      let serviceName := ing.ns ++ "." ++ rp.backend.serviceName ++ "."
        ++ rp.backend.servicePort.toStr
      let fresh : Service :=
        { service :=
            { name := serviceName,
              host := rp.backend.serviceName ++ "." ++ ing.ns ++ "."
                ++ rp.backend.servicePort.toStr ++ ".svc",
              port := DefaultHTTPPort, protocol := "http", path := some "/",
              connectTimeout := some DefaultServiceTimeout,
              readTimeout := some DefaultServiceTimeout,
              writeTimeout := some DefaultServiceTimeout,
              retries := some DefaultRetries },
          ns := ing.ns,
          backend := { name := rp.backend.serviceName,
                       port := PortDefFromIntStr rp.backend.servicePort } }
      (some { key := serviceName, fresh := fresh, route := r }, usedNext)

def b1PathsLoop (hash : IngressRuleB1 → Option String) (flag : Bool)
    (ing : IngressV1beta1) :
    List String → Nat → IngressRuleB1 → Nat → List HTTPIngressPathB1 →
    List RouteOp × List String
  | used, _, _, _, [] => ([], used)
  | used, i, rule, j, rp :: rest =>
    let s1 := b1PathOp hash flag ing used i rule j rp
    let s2 := b1PathsLoop hash flag ing s1.2 i rule (j + 1) rest
    (s1.1.toList ++ s2.1, s2.2)

def b1RulesLoop (hash : IngressRuleB1 → Option String) (flag : Bool)
    (ing : IngressV1beta1) :
    List String → Nat → List IngressRuleB1 → List RouteOp
  | _, _, [] => []
  | used, i, rule :: rest =>
    match rule.http with
    | none => b1RulesLoop hash flag ing used (i + 1) rest
    | some paths =>
      let s := b1PathsLoop hash flag ing used i rule 0 paths
      s.1 ++ b1RulesLoop hash flag ing s.2 (i + 1) rest

def processIngressB1 (hash : IngressRuleB1 → Option String) (flag : Bool)
    (ing : IngressV1beta1) : List RouteOp :=
  b1RulesLoop hash flag ing [] 0 ing.rules

/-- The wildcard route of the winning legacy default backend (translate.go
191-203). -/
def defaultRouteB1 (d : IngressV1beta1) : Route :=
  { ingress := ⟨d.ns, d.name⟩, name := d.ns ++ "." ++ d.name, paths := ["/"],
    stripPath := some false, preserveHost := some true,
    protocols := ["http", "https"], regexPriority := some 0,
    requestBuffering := some true, responseBuffering := some true }

/-- Service key of a legacy default backend (translate.go 166-168). -/
def defaultKeyB1 (d : IngressV1beta1) (b : IngressBackendB1) : String :=
  d.ns ++ "." ++ b.serviceName ++ "." ++ b.servicePort.toStr

/-- The fresh service the legacy default-backend block creates when its key
is absent (translate.go 169-190; no `Path` field). -/
def defaultFreshB1 (d : IngressV1beta1) (b : IngressBackendB1) : Service :=
  { service :=
      { name := defaultKeyB1 d b,
        host := b.serviceName ++ "." ++ d.ns ++ "."
          ++ b.servicePort.toStr ++ ".svc",
        port := DefaultHTTPPort, protocol := "http",
        connectTimeout := some DefaultServiceTimeout,
        readTimeout := some DefaultServiceTimeout,
        writeTimeout := some DefaultServiceTimeout,
        retries := some DefaultRetries },
    ns := d.ns,
    backend := { name := b.serviceName,
                 port := PortDefFromIntStr b.servicePort } }

/-- The single route op of the legacy default-backend block. -/
def defaultOpB1 (d : IngressV1beta1) (b : IngressBackendB1) : RouteOp :=
  { key := defaultKeyB1 d b, fresh := defaultFreshB1 d b,
    route := defaultRouteB1 d }

/-- The default-backend block of `fromIngressV1beta1` (translate.go
162-206). -/
def defaultOpsB1 : List IngressV1beta1 → List RouteOp
  | [] => []
  | d :: _ =>
    match d.backend with
    | none => []
    | some b => [defaultOpB1 d b]

def b1RuleOpsAll (hash : IngressRuleB1 → Option String) (flag : Bool)
    (sorted : List IngressV1beta1) : List RouteOp :=
  (sorted.map (processIngressB1 hash flag)).flatten

def b1SortedDefaults (l : List IngressV1beta1) : List IngressV1beta1 :=
  sortByTs (fun ing => ing.creationTimestamp)
    ((sortByTs (fun ing => ing.creationTimestamp) l).filter
      (fun ing => ing.backend.isSome))

/-- translate.go `fromIngressV1beta1`. -/
def fromIngressV1beta1 (hash : IngressRuleB1 → Option String)
    (ingressList : List IngressV1beta1) (hashedRouteNames : Bool) :
    ingressRules :=
  let sorted := sortByTs (fun ing => ing.creationTimestamp) ingressList
  { serviceNameToServices :=
      applyOps [] (b1RuleOpsAll hash hashedRouteNames sorted
        ++ defaultOpsB1 (b1SortedDefaults ingressList)),
    secretNameToSNIs :=
      sorted.foldl (fun m ing => addFromTLS m ing.tls ing.ns) [] }

/-! ## Claim C9 (frame effect of the in-place sort) -/

/-- Models the in-place `sort.SliceStable` at translate.go 215-218: after
`fromIngressV1` returns, the slice the caller passed holds exactly this
ordering. -/
def ingressListAfterFromIngressV1 (ingressList : List IngressV1) :
    List IngressV1 :=
  sortByTs (fun ing => ing.creationTimestamp) ingressList

/-- Models the in-place `sort.SliceStable` at translate.go 399-402 for
`fromTCPIngressV1beta1`. -/
def tcpListAfterFromTCPIngressV1beta1 (l : List TCPIngress) :
    List TCPIngress :=
  sortByTs (fun ing => ing.creationTimestamp) l

/-- C9 counterexample: the claim says the caller's input list is exactly as
it was before the call; but `sort.SliceStable` sorts the caller's slice in
place, so a list whose creation timestamps are out of order is reordered. -/
theorem c9_counterexample_input_reordered :
    ingressListAfterFromIngressV1
        [{ ns := "ns", name := "a", creationTimestamp := 2 },
         { ns := "ns", name := "b", creationTimestamp := 1 }]
      ≠ [{ ns := "ns", name := "a", creationTimestamp := 2 },
         { ns := "ns", name := "b", creationTimestamp := 1 }] := by
  decide

/-- C9 amended: the normalizers reorder the caller's slice in place — it
ends up stably sorted ascending by creation timestamp — but the final list
is a permutation of the input: same elements, none of them modified. -/
theorem c9_input_list_stably_sorted_in_place :
    (∀ l : List IngressV1,
      (ingressListAfterFromIngressV1 l).Perm l
      ∧ (ingressListAfterFromIngressV1 l).Pairwise
          (fun a b => a.creationTimestamp ≤ b.creationTimestamp))
    ∧ (∀ l : List TCPIngress,
      (tcpListAfterFromTCPIngressV1beta1 l).Perm l
      ∧ (tcpListAfterFromTCPIngressV1beta1 l).Pairwise
          (fun a b => a.creationTimestamp ≤ b.creationTimestamp)) :=
  ⟨fun l => ⟨sortByTs_perm _ l, sortByTs_pairwise _ l⟩,
   fun l => ⟨sortByTs_perm _ l, sortByTs_pairwise _ l⟩⟩

/-! ## Claim C3 counterexample (knative normalizer skips no "//" path) -/

/-- C3 counterexample: the claim says that, in every normalizer, a rule
whose path contains "//" contributes no route; but `fromKnativeIngress`
performs no such validation, and a knative rule with path "/a//b" produces
exactly one route carrying that very path. -/
theorem c3_counterexample_knative_double_slash_route :
    containsDoubleSlash ("/a//b") = true
    ∧ ((fromKnativeIngress (fun _ => none)
          [{ ns := "ns", name := "kn",
             rules := [{ hosts := ["example.com"],
                         http := some [{ path := "/a//b",
                                         splits := [{ serviceNamespace := "ns",
                                                      serviceName := "svc",
                                                      servicePort := .int 80,
                                                      percent := 100 }] }] }] }]
          false).serviceNameToServices.map
        (fun p => p.2.routes.map Route.paths))
      = [[["/a//b"]]] := by
  exact ⟨by decide, by decide⟩

/-! ## Claim C4 (determinism is broken by Go map iteration order) -/

/-- The header entries {"a":"1","b":"2"} of a split backend, in one
iteration order Go's randomized map range may produce. -/
def c4HeadersA : List (String × String) := [("a", "1"), ("b", "2")]

/-- The same map entries in the other iteration order. -/
def c4HeadersB : List (String × String) := [("b", "2"), ("a", "1")]

/-- A knative ingress whose only split carries the given AppendHeaders
entries. -/
def c4KnIngress (hs : List (String × String)) : KnativeIngress :=
  { ns := "ns", name := "kn",
    rules := [{ hosts := [],
                http := some [{ path := "/",
                                splits := [{ serviceNamespace := "ns",
                                             serviceName := "svc",
                                             servicePort := .int 80,
                                             percent := 100,
                                             appendHeaders := hs }] }] }] }

/-- C4: `fromKnativeIngress` builds the request-transformer header list by
ranging over the `AppendHeaders` Go map, whose iteration order is
unspecified and randomized per range; the two orders represent the same
map (the entry lists are permutations of each other) yet give different IR
values, so two invocations on the same fixed snapshot need not produce
identical IR. -/
theorem c4_header_order_depends_on_map_iteration :
    c4HeadersA.Perm c4HeadersB
    ∧ fromKnativeIngress (fun _ => none) [c4KnIngress c4HeadersA] false
      ≠ fromKnativeIngress (fun _ => none) [c4KnIngress c4HeadersB] false := by
  exact ⟨by decide, by decide⟩

/-! ## Claim C3 amended: per-kind validation skips -/

/-- A TCP rule passes every check of `fromTCPIngressV1beta1`: valid listen
port, (when hashed naming is on) a computable unique id, a non-empty
backend service name, and a valid backend service port. -/
def tcpRuleValid (hash : TCPIngressRule → Option String) (flag : Bool)
    (rule : TCPIngressRule) : Prop :=
  IsValidPort rule.port = true
  ∧ (flag = true → (hash rule).isSome = true)
  ∧ rule.backend.serviceName ≠ ""
  ∧ IsValidPort rule.backend.servicePort = true

theorem tcpRuleOp_none_iff (hash : TCPIngressRule → Option String)
    (flag : Bool) (ing : TCPIngress) (used : List String) (i : Nat)
    (rule : TCPIngressRule) :
    (tcpRuleOp hash flag ing used i rule).1 = none
      ↔ ¬ tcpRuleValid hash flag rule := by
  by_cases hp : IsValidPort rule.port = true
  · cases flag with
    | false =>
      by_cases hn : rule.backend.serviceName = ""
      · simp [tcpRuleOp, tcpRuleValid, hp, hn]
      · by_cases hsp : IsValidPort rule.backend.servicePort = true
        · simp [tcpRuleOp, tcpRuleValid, hp, hn, hsp]
        · simp [tcpRuleOp, tcpRuleValid, hp, hn, hsp]
    | true =>
      cases hh : hash rule with
      | none => simp [tcpRuleOp, tcpRuleValid, hp, hh]
      | some h =>
        by_cases hn : rule.backend.serviceName = ""
        · simp [tcpRuleOp, tcpRuleValid, hp, hh, hn]
        · by_cases hsp : IsValidPort rule.backend.servicePort = true
          · simp [tcpRuleOp, tcpRuleValid, hp, hh, hn, hsp]
          · simp [tcpRuleOp, tcpRuleValid, hp, hh, hn, hsp]
  · simp [tcpRuleOp, tcpRuleValid, hp]

/-- C3 amended: rules failing a normalizer's own kind-specific validation
contribute no route, and a skipped rule never aborts the processing of its
siblings — but the checks are per kind, not uniform: the TCP normalizer
skips exactly the rules with an invalid listen port, an uncomputable hashed
name, an empty backend service name, or an invalid backend port; the HTTP
normalizers (current and legacy) skip a rule path containing "//" and
leave the loop state untouched; while a "//" path, an invalid port or an
empty service name elsewhere is not checked (see the counterexample: the
knative normalizer validates nothing). -/
theorem c3_per_kind_validation_skips :
    (∀ (hash : TCPIngressRule → Option String) (flag : Bool)
       (ing : TCPIngress) (used : List String) (i : Nat)
       (rule : TCPIngressRule),
      ((tcpRuleOp hash flag ing used i rule).1 = none
        ↔ ¬ tcpRuleValid hash flag rule))
    ∧ (∀ (hash : TCPIngressRule → Option String) (flag : Bool)
         (ing : TCPIngress) (used : List String) (i : Nat)
         (rule : TCPIngressRule) (rest : List TCPIngressRule),
        tcpRulesLoop hash flag ing used i (rule :: rest)
          = (tcpRuleOp hash flag ing used i rule).1.toList
            ++ tcpRulesLoop hash flag ing
                 (tcpRuleOp hash flag ing used i rule).2 (i + 1) rest)
    ∧ (∀ (hash : IngressRuleV1 → Option String) (flag : Bool)
         (ing : IngressV1) (used : List String) (i j : Nat)
         (rule : IngressRuleV1) (rp : HTTPIngressPathV1),
        containsDoubleSlash rp.path = true →
          v1PathOp hash flag ing used i rule j rp = (none, used))
    ∧ (∀ (hash : IngressRuleV1 → Option String) (flag : Bool)
         (ing : IngressV1) (used : List String) (i j : Nat)
         (rule : IngressRuleV1) (rp : HTTPIngressPathV1)
         (rest : List HTTPIngressPathV1),
        v1PathsLoop hash flag ing used i rule j (rp :: rest)
          = ((v1PathOp hash flag ing used i rule j rp).1.toList
              ++ (v1PathsLoop hash flag ing
                   (v1PathOp hash flag ing used i rule j rp).2
                   i rule (j + 1) rest).1,
             (v1PathsLoop hash flag ing
               (v1PathOp hash flag ing used i rule j rp).2
               i rule (j + 1) rest).2))
    ∧ (∀ (hash : IngressRuleB1 → Option String) (flag : Bool)
         (ing : IngressV1beta1) (used : List String) (i j : Nat)
         (rule : IngressRuleB1) (rp : HTTPIngressPathB1),
        containsDoubleSlash rp.path = true →
          b1PathOp hash flag ing used i rule j rp = (none, used)) := by
  refine ⟨tcpRuleOp_none_iff, fun _ _ _ _ _ _ _ => rfl, ?_, fun _ _ _ _ _ _ _ _ _ => rfl, ?_⟩
  · intro hash flag ing used i j rule rp h
    simp [v1PathOp, h]
  · intro hash flag ing used i j rule rp h
    simp [b1PathOp, h]

/-- Witness for C3 amended: a concrete TCP rule with listen port 0 is
skipped (the iff applied at a concrete input with the invalidity
discharged concretely). -/
theorem c3_per_kind_validation_skips_witness :
    (tcpRuleOp (fun _ => none) false
      { ns := "ns", name := "tcp" } [] 0
      { port := 0, backend := { serviceName := "svc", servicePort := 80 } }).1
    = none :=
  (c3_per_kind_validation_skips.1 (fun _ => none) false
      { ns := "ns", name := "tcp" } [] 0
      { port := 0, backend := { serviceName := "svc", servicePort := 80 } }).mpr
    (fun h => absurd h.1 (by decide))

/-! ## Lookup characterization over an initially empty map -/

theorem lookupS_applyOps_nil (ops : List RouteOp) (k : String) :
    lookupS (applyOps [] ops) k =
      match ops.filter (fun o => o.key = k) with
      | [] => none
      | o :: os =>
          some { o.fresh with
                 routes := o.fresh.routes ++ (o :: os).map RouteOp.route } := by
  rw [lookupS_applyOps ops [] k]
  cases hf : ops.filter (fun o => o.key = k) with
  | nil => simp [lookupS, hf]
  | cons o os => simp [lookupS, hf]

/-- Every executed route op leaves its route visible in the final map under
its own key. -/
theorem lookupS_applyOps_mem (ops : List RouteOp) (op : RouteOp)
    (hmem : op ∈ ops) :
    ∃ svc, lookupS (applyOps [] ops) op.key = some svc
      ∧ op.route ∈ svc.routes := by
  have h := lookupS_applyOps_nil ops op.key
  have hfmem : op ∈ ops.filter (fun o => o.key = op.key) :=
    List.mem_filter.mpr ⟨hmem, by simp⟩
  cases hf : ops.filter (fun o => o.key = op.key) with
  | nil =>
    rw [hf] at hfmem
    simp at hfmem
  | cons o os =>
    rw [hf] at h hfmem
    refine ⟨_, h, ?_⟩
    simp only [List.mem_append, List.mem_map]
    exact Or.inr ⟨op, hfmem, rfl⟩

/-! ## Claim C7 -/

/-- C7: within one normalizer invocation the service map holds at most one
entry per composite key, and each key's entry carries the service-level
fields of the first op that created it (the fresh service of the first
writer, whose routes start empty) with the routes of every op targeting
that key appended in processing order.  Stated for the TCP normalizer and
for the v1 HTTP normalizer (rule ops followed by the default-backend
op). -/
theorem c7_service_map_dedup_first_writer :
    (∀ (hash : TCPIngressRule → Option String) (l : List TCPIngress)
       (flag : Bool),
      (keysOf (fromTCPIngressV1beta1 hash l flag).serviceNameToServices).Nodup
      ∧ ∀ k svc,
          lookupS (fromTCPIngressV1beta1 hash l flag).serviceNameToServices k
            = some svc →
          ∃ o os,
            (tcpOpsAll hash flag
                (sortByTs (fun ing => ing.creationTimestamp) l)).filter
                (fun o2 => o2.key = k) = o :: os
            ∧ svc = { o.fresh with
                      routes := o.fresh.routes ++ (o :: os).map RouteOp.route })
    ∧ (∀ (hash : IngressRuleV1 → Option String) (l : List IngressV1)
         (flag : Bool),
      (keysOf (fromIngressV1 hash l flag).serviceNameToServices).Nodup
      ∧ ∀ k svc,
          lookupS (fromIngressV1 hash l flag).serviceNameToServices k
            = some svc →
          ∃ o os,
            ((v1RuleOpsAll hash flag
                (sortByTs (fun ing => ing.creationTimestamp) l)
              ++ defaultOpsV1 (v1SortedDefaults l)).filter
                (fun o2 => o2.key = k)) = o :: os
            ∧ svc = { o.fresh with
                      routes := o.fresh.routes ++ (o :: os).map RouteOp.route }) := by
  constructor
  · intro hash l flag
    constructor
    · exact keysOf_nodup_applyOps _ [] (by simp [keysOf])
    · intro k svc hsvc
      have h2 : lookupS
          (applyOps [] (tcpOpsAll hash flag
            (sortByTs (fun ing => ing.creationTimestamp) l))) k = some svc := hsvc
      rw [lookupS_applyOps_nil] at h2
      cases hf : (tcpOpsAll hash flag
          (sortByTs (fun ing => ing.creationTimestamp) l)).filter
          (fun o2 => o2.key = k) with
      | nil =>
        rw [hf] at h2
        simp at h2
      | cons o os =>
        rw [hf] at h2
        simp at h2
        exact ⟨o, os, rfl, h2.symm⟩
  · intro hash l flag
    constructor
    · exact keysOf_nodup_applyOps _ [] (by simp [keysOf])
    · intro k svc hsvc
      have h2 : lookupS
          (applyOps [] (v1RuleOpsAll hash flag
              (sortByTs (fun ing => ing.creationTimestamp) l)
            ++ defaultOpsV1 (v1SortedDefaults l))) k = some svc := hsvc
      rw [lookupS_applyOps_nil] at h2
      cases hf : ((v1RuleOpsAll hash flag
            (sortByTs (fun ing => ing.creationTimestamp) l)
          ++ defaultOpsV1 (v1SortedDefaults l)).filter
          (fun o2 => o2.key = k)) with
      | nil =>
        rw [hf] at h2
        simp at h2
      | cons o os =>
        rw [hf] at h2
        simp at h2
        exact ⟨o, os, rfl, h2.symm⟩

/-- Concrete TCP ingress for the C7 witness. -/
def c7TcpIngress : TCPIngress :=
  { ns := "ns", name := "tcp",
    rules := [{ port := 9000, host := "",
                backend := { serviceName := "svc", servicePort := 80 } }] }

/-- The single service value `fromTCPIngressV1beta1` produces for
`c7TcpIngress`. -/
def c7TcpService : Service :=
  { service := { name := "ns.svc.80", host := "svc.ns.80.svc", port := 80,
                 protocol := "tcp", connectTimeout := some 60000,
                 readTimeout := some 60000, writeTimeout := some 60000,
                 retries := some 5 },
    ns := "ns",
    backend := { name := "svc", port := { mode := .byNumber, number := 80 } },
    routes := [{ ingress := ⟨"ns", "tcp"⟩, name := "ns.tcp.0",
                 protocols := ["tcp", "tls"], destinations := [9000] }] }

/-- Witness for C7: the first-writer characterization applied at a concrete
one-rule TCP snapshot, with the lookup hypothesis discharged by
computation. -/
theorem c7_service_map_dedup_first_writer_witness :
    ∃ o os,
      (tcpOpsAll (fun _ => none) false
          (sortByTs (fun ing => ing.creationTimestamp) [c7TcpIngress])).filter
          (fun o2 => o2.key = "ns.svc.80") = o :: os
      ∧ c7TcpService = { o.fresh with
          routes := o.fresh.routes ++ (o :: os).map RouteOp.route } :=
  (c7_service_map_dedup_first_writer.1 (fun _ => none) [c7TcpIngress]
      false).2 ("ns.svc.80") c7TcpService (by decide)

/-! ## Claim C10 -/

/-- C10: for both HTTP normalizers the materialized default-backend route
is always named `namespace.resourceName` of its originating (earliest)
resource, for every value of the naming flag and every hash function: it is
neither hashed nor kind-prefixed nor collision-suffixed. -/
theorem c10_default_route_name_plain :
    (∀ (hash : IngressRuleV1 → Option String) (l : List IngressV1)
       (flag : Bool) (d : IngressV1) (ds : List IngressV1),
      v1SortedDefaults l = d :: ds →
      ∀ b, d.defaultBackend = some b →
      ∃ svc,
        lookupS (fromIngressV1 hash l flag).serviceNameToServices
            (defaultKeyV1 d b) = some svc
        ∧ defaultRouteV1 d ∈ svc.routes
        ∧ (defaultRouteV1 d).name = d.ns ++ "." ++ d.name)
    ∧ (∀ (hash : IngressRuleB1 → Option String) (l : List IngressV1beta1)
         (flag : Bool) (d : IngressV1beta1) (ds : List IngressV1beta1),
      b1SortedDefaults l = d :: ds →
      ∀ b, d.backend = some b →
      ∃ svc,
        lookupS (fromIngressV1beta1 hash l flag).serviceNameToServices
            (defaultKeyB1 d b) = some svc
        ∧ defaultRouteB1 d ∈ svc.routes
        ∧ (defaultRouteB1 d).name = d.ns ++ "." ++ d.name) := by
  constructor
  · intro hash l flag d ds hsd b hb
    have hops : defaultOpsV1 (v1SortedDefaults l) = [defaultOpV1 d b] := by
      rw [hsd]
      simp [defaultOpsV1, hb]
    have hmem : defaultOpV1 d b
        ∈ (v1RuleOpsAll hash flag
            (sortByTs (fun ing => ing.creationTimestamp) l)
          ++ defaultOpsV1 (v1SortedDefaults l)) := by
      rw [hops]
      simp
    obtain ⟨svc, hlk, hrt⟩ := lookupS_applyOps_mem _ _ hmem
    exact ⟨svc, hlk, hrt, rfl⟩
  · intro hash l flag d ds hsd b hb
    have hops : defaultOpsB1 (b1SortedDefaults l) = [defaultOpB1 d b] := by
      rw [hsd]
      simp [defaultOpsB1, hb]
    have hmem : defaultOpB1 d b
        ∈ (b1RuleOpsAll hash flag
            (sortByTs (fun ing => ing.creationTimestamp) l)
          ++ defaultOpsB1 (b1SortedDefaults l)) := by
      rw [hops]
      simp
    obtain ⟨svc, hlk, hrt⟩ := lookupS_applyOps_mem _ _ hmem
    exact ⟨svc, hlk, hrt, rfl⟩

/-- Concrete v1 ingress with a default backend for the C10 witness. -/
def c10Ingress : IngressV1 :=
  { ns := "ns", name := "ing",
    defaultBackend := some { service := { name := "dsvc",
                                          port := { number := 8080 } } } }

/-- Witness for C10: the default route of a concrete one-resource snapshot
is found under its backend's key with plain name `ns.ing`, with both
hypotheses discharged by computation (and, the flag being universally
quantified, the same instantiation works under either naming mode). -/
theorem c10_default_route_name_plain_witness :
    ∃ svc,
      lookupS (fromIngressV1 (fun _ => none) [c10Ingress]
          true).serviceNameToServices
          (defaultKeyV1 c10Ingress
            { service := { name := "dsvc", port := { number := 8080 } } })
        = some svc
      ∧ defaultRouteV1 c10Ingress ∈ svc.routes
      ∧ (defaultRouteV1 c10Ingress).name = c10Ingress.ns ++ "." ++ c10Ingress.name :=
  c10_default_route_name_plain.1 (fun _ => none) [c10Ingress] true c10Ingress
    [] (by decide)
    { service := { name := "dsvc", port := { number := 8080 } } } (by decide)

/-! ## Structure of the routes emitted by the HTTP rule loops -/

/-- Every successful v1 path op: a fresh service with empty routes, the
provenance of its resource, a route name strictly longer than
`namespace.name` (both naming modes add at least an extra separator and
index/prefix material), and match patterns and priority coming from the
Path & Priority Translator applied to the rule path. -/
theorem v1PathOp_spec (hash : IngressRuleV1 → Option String) (flag : Bool)
    (ing : IngressV1) (used : List String) (i j : Nat) (rule : IngressRuleV1)
    (rp : HTTPIngressPathV1) (op : RouteOp) (usedNext : List String)
    (h : v1PathOp hash flag ing used i rule j rp = (some op, usedNext)) :
    op.fresh.routes = []
    ∧ op.route.ingress = ⟨ing.ns, ing.name⟩
    ∧ op.route.name.length > ing.ns.length + 1 + ing.name.length
    ∧ (∃ ps, pathsFromK8s rp.path (rp.pathType.getD ("ImplementationSpecific"))
          = .ok ps
        ∧ op.route.paths = ps
        ∧ op.route.regexPriority
            = some (priorityForPath
                (rp.pathType.getD ("ImplementationSpecific")))) := by
  by_cases hds : containsDoubleSlash rp.path = true
  · simp [v1PathOp, hds] at h
  · cases hpk : pathsFromK8s rp.path (rp.pathType.getD ("ImplementationSpecific")) with
    | error e => simp [v1PathOp, hds, hpk] at h
    | ok ps =>
      cases flag with
      | false =>
        simp only [v1PathOp, hds, hpk, if_false, Bool.false_eq_true] at h
        obtain ⟨h1, h2⟩ := Prod.mk.injEq .. ▸ h
        obtain rfl := (Option.some.injEq .. ▸ h1).symm
        refine ⟨rfl, rfl, ?_, ⟨ps, rfl, rfl, rfl⟩⟩
        simp only [String.length_append]
        have hdot : (".").length = 1 := rfl
        omega
      | true =>
        cases hh : hash { rule with http := some [rp] } with
        | none => simp [v1PathOp, hds, hpk, hh] at h
        | some hs =>
          by_cases hu : (ingressV1RoutePfxOf ing ++ hs) ∈ used
          · simp only [v1PathOp, hds, hpk, hh, hu, if_true, if_false,
              Bool.false_eq_true] at h
            obtain ⟨h1, h2⟩ := Prod.mk.injEq .. ▸ h
            obtain rfl := (Option.some.injEq .. ▸ h1).symm
            refine ⟨rfl, rfl, ?_, ⟨ps, rfl, rfl, rfl⟩⟩
            simp only [ingressV1RoutePfxOf, String.length_append]
            have hdot : (".").length = 1 := rfl
            omega
          · simp only [v1PathOp, hds, hpk, hh, hu, if_true, if_false,
              Bool.false_eq_true] at h
            obtain ⟨h1, h2⟩ := Prod.mk.injEq .. ▸ h
            obtain rfl := (Option.some.injEq .. ▸ h1).symm
            refine ⟨rfl, rfl, ?_, ⟨ps, rfl, rfl, rfl⟩⟩
            simp only [ingressV1RoutePfxOf, String.length_append]
            have hdot : (".").length = 1 := rfl
            omega

/-- Every op emitted by the v1 paths loop comes from a successful
`v1PathOp` on one of the loop's rule paths. -/
theorem v1PathsLoop_mem (hash : IngressRuleV1 → Option String) (flag : Bool)
    (ing : IngressV1) (rule : IngressRuleV1) (i : Nat) :
    ∀ (ps : List HTTPIngressPathV1) (used : List String) (j : Nat)
      (op : RouteOp), op ∈ (v1PathsLoop hash flag ing used i rule j ps).1 →
      ∃ rp ∈ ps, ∃ used1 j1 usedN,
        v1PathOp hash flag ing used1 i rule j1 rp = (some op, usedN) := by
  intro ps
  induction ps with
  | nil =>
    intro used j op h
    simp [v1PathsLoop] at h
  | cons rp rest ih =>
    intro used j op h
    have h2 : op ∈ (v1PathOp hash flag ing used i rule j rp).1.toList
        ∨ op ∈ (v1PathsLoop hash flag ing
            (v1PathOp hash flag ing used i rule j rp).2 i rule (j + 1) rest).1 := by
      simpa [v1PathsLoop] using h
    rcases h2 with h2 | h2
    · have hsome : (v1PathOp hash flag ing used i rule j rp).1 = some op := by
        cases hx : (v1PathOp hash flag ing used i rule j rp).1 with
        | none => rw [hx] at h2; simp at h2
        | some o =>
          rw [hx] at h2
          simp at h2
          rw [h2]
      refine ⟨rp, by simp, used, j,
        (v1PathOp hash flag ing used i rule j rp).2, ?_⟩
      rw [← hsome]
    · obtain ⟨rp2, hrp2, used1, j1, usedN, hop⟩ := ih _ _ _ h2
      exact ⟨rp2, by simp [hrp2], used1, j1, usedN, hop⟩

/-- Every op emitted by the v1 rules loop comes from a successful
`v1PathOp` on a path of one of its rules. -/
theorem v1RulesLoop_mem (hash : IngressRuleV1 → Option String) (flag : Bool)
    (ing : IngressV1) :
    ∀ (rules : List IngressRuleV1) (used : List String) (i : Nat)
      (op : RouteOp), op ∈ v1RulesLoop hash flag ing used i rules →
      ∃ rule ∈ rules, ∃ ps, rule.http = some ps ∧ ∃ rp ∈ ps,
        ∃ used1 i1 j1 usedN,
          v1PathOp hash flag ing used1 i1 rule j1 rp = (some op, usedN) := by
  intro rules
  induction rules with
  | nil =>
    intro used i op h
    simp [v1RulesLoop] at h
  | cons rule rest ih =>
    intro used i op h
    cases hhttp : rule.http with
    | none =>
      rw [v1RulesLoop, hhttp] at h
      obtain ⟨rule2, hr2, ps, hps, rest2⟩ := ih _ _ _ h
      exact ⟨rule2, by simp [hr2], ps, hps, rest2⟩
    | some ps =>
      rw [v1RulesLoop, hhttp] at h
      have h2 : op ∈ (v1PathsLoop hash flag ing used i rule 0 ps).1
          ∨ op ∈ v1RulesLoop hash flag ing
              (v1PathsLoop hash flag ing used i rule 0 ps).2 (i + 1) rest := by
        simpa using h
      rcases h2 with h2 | h2
      · obtain ⟨rp, hrp, used1, j1, usedN, hop⟩ :=
          v1PathsLoop_mem hash flag ing rule i ps used 0 op h2
        exact ⟨rule, by simp, ps, hhttp, rp, hrp, used1, i, j1, usedN, hop⟩
      · obtain ⟨rule2, hr2, ps2, hps2, rest2⟩ := ih _ _ _ h2
        exact ⟨rule2, by simp [hr2], ps2, hps2, rest2⟩

/-- Every rule op of `fromIngressV1` comes from a successful `v1PathOp` on
a rule path of one of the (sorted) resources. -/
theorem v1RuleOpsAll_mem (hash : IngressRuleV1 → Option String) (flag : Bool)
    (sorted : List IngressV1) (op : RouteOp)
    (h : op ∈ v1RuleOpsAll hash flag sorted) :
    ∃ ing ∈ sorted, ∃ rule ∈ ing.rules, ∃ ps, rule.http = some ps
      ∧ ∃ rp ∈ ps, ∃ used1 i1 j1 usedN,
          v1PathOp hash flag ing used1 i1 rule j1 rp = (some op, usedN) := by
  have h2 : ∃ ing ∈ sorted, op ∈ processIngressV1 hash flag ing := by
    simp only [v1RuleOpsAll, List.mem_flatten, List.mem_map] at h
    obtain ⟨ops1, ⟨ing, hing, rfl⟩, hop⟩ := h
    exact ⟨ing, hing, hop⟩
  obtain ⟨ing, hing, hop⟩ := h2
  obtain ⟨rule, hrule, ps, hps, rest⟩ :=
    v1RulesLoop_mem hash flag ing ing.rules [] 0 op hop
  exact ⟨ing, hing, rule, hrule, ps, hps, rest⟩

/-- Every successful legacy path op: fresh service with empty routes,
provenance, a route name strictly longer than `namespace.name`, and — in
contrast to the v1 shape — the literal rule path (empty becomes "/") with
`RegexPriority` 0, whatever the rule path's path type says. -/
theorem b1PathOp_spec (hash : IngressRuleB1 → Option String) (flag : Bool)
    (ing : IngressV1beta1) (used : List String) (i j : Nat)
    (rule : IngressRuleB1) (rp : HTTPIngressPathB1) (op : RouteOp)
    (usedNext : List String)
    (h : b1PathOp hash flag ing used i rule j rp = (some op, usedNext)) :
    op.fresh.routes = []
    ∧ op.route.ingress = ⟨ing.ns, ing.name⟩
    ∧ op.route.name.length > ing.ns.length + 1 + ing.name.length
    ∧ op.route.paths = [if rp.path = "" then "/" else rp.path]
    ∧ op.route.regexPriority = some 0 := by
  by_cases hds : containsDoubleSlash rp.path = true
  · simp [b1PathOp, hds] at h
  · cases flag with
    | false =>
      simp only [b1PathOp, hds, if_false, Bool.false_eq_true] at h
      obtain ⟨h1, h2⟩ := Prod.mk.injEq .. ▸ h
      obtain rfl := (Option.some.injEq .. ▸ h1).symm
      refine ⟨rfl, rfl, ?_, rfl, rfl⟩
      simp only [String.length_append]
      have hdot : (".").length = 1 := rfl
      omega
    | true =>
      cases hh : hash { rule with http := some [rp] } with
      | none => simp [b1PathOp, hds, hh] at h
      | some hs =>
        by_cases hu : (ingressB1RoutePfxOf ing ++ hs) ∈ used
        · simp only [b1PathOp, hds, hh, hu, if_true, if_false,
            Bool.false_eq_true] at h
          obtain ⟨h1, h2⟩ := Prod.mk.injEq .. ▸ h
          obtain rfl := (Option.some.injEq .. ▸ h1).symm
          refine ⟨rfl, rfl, ?_, rfl, rfl⟩
          simp only [ingressB1RoutePfxOf, String.length_append]
          have hdot : (".").length = 1 := rfl
          omega
        · simp only [b1PathOp, hds, hh, hu, if_true, if_false,
            Bool.false_eq_true] at h
          obtain ⟨h1, h2⟩ := Prod.mk.injEq .. ▸ h
          obtain rfl := (Option.some.injEq .. ▸ h1).symm
          refine ⟨rfl, rfl, ?_, rfl, rfl⟩
          simp only [ingressB1RoutePfxOf, String.length_append]
          have hdot : (".").length = 1 := rfl
          omega

/-- Every op emitted by the legacy paths loop comes from a successful
`b1PathOp` on one of the loop's rule paths. -/
theorem b1PathsLoop_mem (hash : IngressRuleB1 → Option String) (flag : Bool)
    (ing : IngressV1beta1) (rule : IngressRuleB1) (i : Nat) :
    ∀ (ps : List HTTPIngressPathB1) (used : List String) (j : Nat)
      (op : RouteOp), op ∈ (b1PathsLoop hash flag ing used i rule j ps).1 →
      ∃ rp ∈ ps, ∃ used1 j1 usedN,
        b1PathOp hash flag ing used1 i rule j1 rp = (some op, usedN) := by
  intro ps
  induction ps with
  | nil =>
    intro used j op h
    simp [b1PathsLoop] at h
  | cons rp rest ih =>
    intro used j op h
    have h2 : op ∈ (b1PathOp hash flag ing used i rule j rp).1.toList
        ∨ op ∈ (b1PathsLoop hash flag ing
            (b1PathOp hash flag ing used i rule j rp).2 i rule (j + 1) rest).1 := by
      simpa [b1PathsLoop] using h
    rcases h2 with h2 | h2
    · have hsome : (b1PathOp hash flag ing used i rule j rp).1 = some op := by
        cases hx : (b1PathOp hash flag ing used i rule j rp).1 with
        | none => rw [hx] at h2; simp at h2
        | some o =>
          rw [hx] at h2
          simp at h2
          rw [h2]
      refine ⟨rp, by simp, used, j,
        (b1PathOp hash flag ing used i rule j rp).2, ?_⟩
      rw [← hsome]
    · obtain ⟨rp2, hrp2, used1, j1, usedN, hop⟩ := ih _ _ _ h2
      exact ⟨rp2, by simp [hrp2], used1, j1, usedN, hop⟩

/-- Every op emitted by the legacy rules loop comes from a successful
`b1PathOp` on a path of one of its rules. -/
theorem b1RulesLoop_mem (hash : IngressRuleB1 → Option String) (flag : Bool)
    (ing : IngressV1beta1) :
    ∀ (rules : List IngressRuleB1) (used : List String) (i : Nat)
      (op : RouteOp), op ∈ b1RulesLoop hash flag ing used i rules →
      ∃ rule ∈ rules, ∃ ps, rule.http = some ps ∧ ∃ rp ∈ ps,
        ∃ used1 i1 j1 usedN,
          b1PathOp hash flag ing used1 i1 rule j1 rp = (some op, usedN) := by
  intro rules
  induction rules with
  | nil =>
    intro used i op h
    simp [b1RulesLoop] at h
  | cons rule rest ih =>
    intro used i op h
    cases hhttp : rule.http with
    | none =>
      rw [b1RulesLoop, hhttp] at h
      obtain ⟨rule2, hr2, ps, hps, rest2⟩ := ih _ _ _ h
      exact ⟨rule2, by simp [hr2], ps, hps, rest2⟩
    | some ps =>
      rw [b1RulesLoop, hhttp] at h
      have h2 : op ∈ (b1PathsLoop hash flag ing used i rule 0 ps).1
          ∨ op ∈ b1RulesLoop hash flag ing
              (b1PathsLoop hash flag ing used i rule 0 ps).2 (i + 1) rest := by
        simpa using h
      rcases h2 with h2 | h2
      · obtain ⟨rp, hrp, used1, j1, usedN, hop⟩ :=
          b1PathsLoop_mem hash flag ing rule i ps used 0 op h2
        exact ⟨rule, by simp, ps, hhttp, rp, hrp, used1, i, j1, usedN, hop⟩
      · obtain ⟨rule2, hr2, ps2, hps2, rest2⟩ := ih _ _ _ h2
        exact ⟨rule2, by simp [hr2], ps2, hps2, rest2⟩

/-- Every rule op of `fromIngressV1beta1` comes from a successful
`b1PathOp` on a rule path of one of the (sorted) resources. -/
theorem b1RuleOpsAll_mem (hash : IngressRuleB1 → Option String) (flag : Bool)
    (sorted : List IngressV1beta1) (op : RouteOp)
    (h : op ∈ b1RuleOpsAll hash flag sorted) :
    ∃ ing ∈ sorted, ∃ rule ∈ ing.rules, ∃ ps, rule.http = some ps
      ∧ ∃ rp ∈ ps, ∃ used1 i1 j1 usedN,
          b1PathOp hash flag ing used1 i1 rule j1 rp = (some op, usedN) := by
  have h2 : ∃ ing ∈ sorted, op ∈ processIngressB1 hash flag ing := by
    simp only [b1RuleOpsAll, List.mem_flatten, List.mem_map] at h
    obtain ⟨ops1, ⟨ing, hing, rfl⟩, hop⟩ := h
    exact ⟨ing, hing, hop⟩
  obtain ⟨ing, hing, hop⟩ := h2
  obtain ⟨rule, hrule, ps, hps, rest⟩ :=
    b1RulesLoop_mem hash flag ing ing.rules [] 0 op hop
  exact ⟨ing, hing, rule, hrule, ps, hps, rest⟩

/-! ## Claim C5 -/

/-- C5 counterexample: the claim says both HTTP normalizers apply
path-type-aware translation; but for a legacy rule path "/foo" declared
Exact — for which the Path & Priority Translator yields "/foo$" with
priority 300 — `fromIngressV1beta1` emits the literal path "/foo" with
priority 0. -/
theorem c5_counterexample_legacy_ignores_path_type :
    pathsFromK8s ("/foo") ("Exact") = .ok ["/foo$"]
    ∧ priorityForPath ("Exact") = 300
    ∧ ((fromIngressV1beta1 (fun _ => none)
          [{ ns := "ns", name := "legacy",
             rules := [{ host := "",
                         http := some [{ path := "/foo",
                                         pathType := some ("Exact"),
                                         backend := { serviceName := "svc",
                                                      servicePort := .int 80 } }] }] }]
          false).serviceNameToServices.map
        (fun p => p.2.routes.map (fun r => (r.paths, r.regexPriority))))
      = [[(["/foo"], some 0)]] := by
  exact ⟨rfl, by decide, by decide⟩

/-- C5 amended: only the current (v1) normalizer applies path-type-aware
translation — every route it emits for a rule path carries exactly the
Path & Priority Translator's patterns and priority for that path and its
(defaulted) path type; the legacy normalizer ignores the path type and
emits the literal path (empty becomes "/") with priority 0. -/
theorem c5_path_type_translation_v1_only :
    (∀ (hash : IngressRuleV1 → Option String) (flag : Bool)
       (sorted : List IngressV1) (op : RouteOp),
      op ∈ v1RuleOpsAll hash flag sorted →
      ∃ ing ∈ sorted, ∃ rule ∈ ing.rules, ∃ ps2, rule.http = some ps2
        ∧ ∃ rp ∈ ps2, ∃ ps,
          pathsFromK8s rp.path (rp.pathType.getD ("ImplementationSpecific"))
            = .ok ps
          ∧ op.route.paths = ps
          ∧ op.route.regexPriority
              = some (priorityForPath
                  (rp.pathType.getD ("ImplementationSpecific"))))
    ∧ (∀ (hash : IngressRuleB1 → Option String) (flag : Bool)
         (sorted : List IngressV1beta1) (op : RouteOp),
      op ∈ b1RuleOpsAll hash flag sorted →
      ∃ ing ∈ sorted, ∃ rule ∈ ing.rules, ∃ ps2, rule.http = some ps2
        ∧ ∃ rp ∈ ps2,
          op.route.paths = [if rp.path = "" then "/" else rp.path]
          ∧ op.route.regexPriority = some 0) := by
  constructor
  · intro hash flag sorted op h
    obtain ⟨ing, hi, rule, hr, ps2, hps2, rp, hrp, used1, i1, j1, usedN, hop⟩ :=
      v1RuleOpsAll_mem hash flag sorted op h
    obtain ⟨_, _, _, ps, hpk, hpaths, hprio⟩ :=
      v1PathOp_spec hash flag ing used1 i1 j1 rule rp op usedN hop
    exact ⟨ing, hi, rule, hr, ps2, hps2, rp, hrp, ps, hpk, hpaths, hprio⟩
  · intro hash flag sorted op h
    obtain ⟨ing, hi, rule, hr, ps2, hps2, rp, hrp, used1, i1, j1, usedN, hop⟩ :=
      b1RuleOpsAll_mem hash flag sorted op h
    obtain ⟨_, _, _, hpaths, hprio⟩ :=
      b1PathOp_spec hash flag ing used1 i1 j1 rule rp op usedN hop
    exact ⟨ing, hi, rule, hr, ps2, hps2, rp, hrp, hpaths, hprio⟩

/-- Concrete v1 ingress for the C5 witness: one Exact rule path "/foo". -/
def c5Ingress : IngressV1 :=
  { ns := "n", name := "i",
    rules := [{ host := "",
                http := some [{ path := "/foo", pathType := some ("Exact"),
                                backend := { service :=
                                  { name := "s",
                                    port := { number := 80 } } } }] }] }

/-- The single route op `fromIngressV1` emits for `c5Ingress` under
sequential naming: anchored pattern "/foo$", priority 300. -/
def c5Op : RouteOp :=
  { key := "n.s.pnum-80",
    fresh := { service := { name := "n.s.pnum-80", host := "s.n.80.svc",
                            port := 80, protocol := "http", path := some "/",
                            connectTimeout := some 60000,
                            readTimeout := some 60000,
                            writeTimeout := some 60000, retries := some 5 },
               ns := "n",
               backend := { name := "s",
                            port := { mode := .byNumber, number := 80 } } },
    route := { ingress := ⟨"n", "i"⟩, name := "n.i.00", paths := ["/foo$"],
               stripPath := some false, preserveHost := some true,
               protocols := ["http", "https"], regexPriority := some 300,
               requestBuffering := some true,
               responseBuffering := some true } }

/-- Witness for C5 amended: the v1 clause applied to the concrete op that
`fromIngressV1` emits for `c5Ingress`, with the membership hypothesis
discharged by computation. -/
theorem c5_path_type_translation_v1_only_witness :
    ∃ ing ∈ sortByTs (fun ing => ing.creationTimestamp) [c5Ingress],
      ∃ rule ∈ ing.rules, ∃ ps2, rule.http = some ps2
      ∧ ∃ rp ∈ ps2, ∃ ps,
        pathsFromK8s rp.path (rp.pathType.getD ("ImplementationSpecific"))
          = .ok ps
        ∧ c5Op.route.paths = ps
        ∧ c5Op.route.regexPriority
            = some (priorityForPath
                (rp.pathType.getD ("ImplementationSpecific"))) :=
  c5_path_type_translation_v1_only.1 (fun _ => none) false
    (sortByTs (fun ing => ing.creationTimestamp) [c5Ingress]) c5Op (by decide)

/-! ## Default-backend characterization (claim C2) -/

/-- No route emitted by the v1 rule loops can equal a materialized default
route: with matching provenance its name would have to be
`namespace.name`, but every rule-route name is strictly longer. -/
theorem v1RuleOp_ne_defaultRoute (hash : IngressRuleV1 → Option String)
    (flag : Bool) (sorted : List IngressV1) (op : RouteOp) (x : IngressV1)
    (h : op ∈ v1RuleOpsAll hash flag sorted) :
    op.route ≠ defaultRouteV1 x := by
  intro heq
  obtain ⟨ing, _, rule, _, ps2, _, rp, _, used1, i1, j1, usedN, hop⟩ :=
    v1RuleOpsAll_mem hash flag sorted op h
  obtain ⟨_, hingress, hlen, _⟩ :=
    v1PathOp_spec hash flag ing used1 i1 j1 rule rp op usedN hop
  have hing2 : (⟨ing.ns, ing.name⟩ : K8sObjectInfo) = ⟨x.ns, x.name⟩ := by
    rw [← hingress, heq]
    rfl
  have hns : ing.ns = x.ns := congrArg K8sObjectInfo.ns hing2
  have hnm : ing.name = x.name := congrArg K8sObjectInfo.name hing2
  have hname : op.route.name = x.ns ++ "." ++ x.name := by
    rw [heq]
    rfl
  have hdot : (".").length = 1 := rfl
  rw [hname, hns, hnm] at hlen
  simp only [String.length_append, hdot] at hlen
  omega

/-- All fresh services in the op list of `fromIngressV1` start with empty
routes. -/
theorem v1OpsAll_fresh_routes (hash : IngressRuleV1 → Option String)
    (flag : Bool) (l : List IngressV1) (op : RouteOp)
    (h : op ∈ v1RuleOpsAll hash flag
          (sortByTs (fun ing => ing.creationTimestamp) l)
        ++ defaultOpsV1 (v1SortedDefaults l)) :
    op.fresh.routes = [] := by
  rcases List.mem_append.mp h with h2 | h2
  · obtain ⟨ing, _, rule, _, ps2, _, rp, _, used1, i1, j1, usedN, hop⟩ :=
      v1RuleOpsAll_mem hash flag _ op h2
    exact (v1PathOp_spec hash flag ing used1 i1 j1 rule rp op usedN hop).1
  · unfold defaultOpsV1 at h2
    split at h2
    · simp at h2
    · split at h2
      · simp at h2
      · simp only [List.mem_singleton] at h2
        rw [h2]
        rfl

/-- The route multiset of `fromIngressV1` when a default backend exists:
one route per successful rule op plus exactly the single default route of
the head of the sorted candidate list. -/
theorem v1_routesM_with_default (hash : IngressRuleV1 → Option String)
    (l : List IngressV1) (flag : Bool) (d : IngressV1) (ds : List IngressV1)
    (hsd : v1SortedDefaults l = d :: ds) (b : IngressBackendV1)
    (hb : d.defaultBackend = some b) :
    routesM (fromIngressV1 hash l flag).serviceNameToServices
      = ((v1RuleOpsAll hash flag
            (sortByTs (fun ing => ing.creationTimestamp) l)).map
          RouteOp.route : List Route)
        + {defaultRouteV1 d} := by
  have hdefops : defaultOpsV1 (v1SortedDefaults l) = [defaultOpV1 d b] := by
    rw [hsd]
    simp [defaultOpsV1, hb]
  have hchain : routesM (fromIngressV1 hash l flag).serviceNameToServices
      = routesM ([] : SMap)
        + (((v1RuleOpsAll hash flag
              (sortByTs (fun ing => ing.creationTimestamp) l)
            ++ defaultOpsV1 (v1SortedDefaults l)).map
            RouteOp.route : List Route) : Multiset Route) :=
    routesM_applyOps _ [] (fun op hop => v1OpsAll_fresh_routes hash flag l op hop)
  rw [hchain, hdefops]
  have hnil : routesM ([] : SMap) = 0 := rfl
  rw [hnil, zero_add, List.map_append]
  rw [← Multiset.coe_add]
  rfl

/-- The v1 half of claim C2. -/
theorem v1_default_backend_spec (hash : IngressRuleV1 → Option String)
    (l : List IngressV1) (flag : Bool) (d : IngressV1) (ds : List IngressV1)
    (hsd : v1SortedDefaults l = d :: ds) (b : IngressBackendV1)
    (hb : d.defaultBackend = some b) :
    Multiset.count (defaultRouteV1 d)
        (routesM (fromIngressV1 hash l flag).serviceNameToServices) = 1
    ∧ (defaultRouteV1 d).paths = ["/"]
    ∧ (defaultRouteV1 d).hosts = []
    ∧ (∀ x ∈ l, x.defaultBackend.isSome = true →
        d.creationTimestamp ≤ x.creationTimestamp)
    ∧ (∃ svc, lookupS (fromIngressV1 hash l flag).serviceNameToServices
          (defaultKeyV1 d b) = some svc ∧ defaultRouteV1 d ∈ svc.routes)
    ∧ (∀ x : IngressV1, defaultRouteV1 x ≠ defaultRouteV1 d →
        defaultRouteV1 x ∉
          routesM (fromIngressV1 hash l flag).serviceNameToServices) := by
  have hm := v1_routesM_with_default hash l flag d ds hsd b hb
  have hnotin : ∀ x : IngressV1, defaultRouteV1 x ∉
      ((v1RuleOpsAll hash flag
          (sortByTs (fun ing => ing.creationTimestamp) l)).map
        RouteOp.route) := by
    intro x hmem
    obtain ⟨op, hop, heq⟩ := List.mem_map.mp hmem
    exact v1RuleOp_ne_defaultRoute hash flag _ op x hop heq
  refine ⟨?_, rfl, rfl, ?_, ?_, ?_⟩
  · rw [hm, Multiset.count_add]
    have h0 : Multiset.count (defaultRouteV1 d)
        (((v1RuleOpsAll hash flag
            (sortByTs (fun ing => ing.creationTimestamp) l)).map
          RouteOp.route : List Route) : Multiset Route) = 0 := by
      rw [Multiset.count_eq_zero]
      intro hmem
      exact hnotin d (by simpa using hmem)
    rw [h0]
    simp
  · intro x hx hsome
    have hmemS : x ∈ sortByTs (fun ing => ing.creationTimestamp) l :=
      (sortByTs_perm _ l).mem_iff.mpr hx
    have hmemF : x ∈ (sortByTs (fun ing => ing.creationTimestamp) l).filter
        (fun ing => ing.defaultBackend.isSome) :=
      List.mem_filter.mpr ⟨hmemS, by simpa using hsome⟩
    exact sortByTs_head_min _ _ d ds hsd x hmemF
  · have hdefops : defaultOpsV1 (v1SortedDefaults l) = [defaultOpV1 d b] := by
      rw [hsd]
      simp [defaultOpsV1, hb]
    have hmem : defaultOpV1 d b
        ∈ (v1RuleOpsAll hash flag
            (sortByTs (fun ing => ing.creationTimestamp) l)
          ++ defaultOpsV1 (v1SortedDefaults l)) := by
      rw [hdefops]
      simp
    obtain ⟨svc, hlk, hrt⟩ := lookupS_applyOps_mem _ _ hmem
    exact ⟨svc, hlk, hrt⟩
  · intro x hne hmem
    rw [hm] at hmem
    rcases Multiset.mem_add.mp hmem with hmem | hmem
    · exact hnotin x (by simpa using hmem)
    · exact hne (by simpa using hmem)

/-- Legacy analogue of `v1RuleOp_ne_defaultRoute`. -/
theorem b1RuleOp_ne_defaultRoute (hash : IngressRuleB1 → Option String)
    (flag : Bool) (sorted : List IngressV1beta1) (op : RouteOp)
    (x : IngressV1beta1) (h : op ∈ b1RuleOpsAll hash flag sorted) :
    op.route ≠ defaultRouteB1 x := by
  intro heq
  obtain ⟨ing, _, rule, _, ps2, _, rp, _, used1, i1, j1, usedN, hop⟩ :=
    b1RuleOpsAll_mem hash flag sorted op h
  obtain ⟨_, hingress, hlen, _⟩ :=
    b1PathOp_spec hash flag ing used1 i1 j1 rule rp op usedN hop
  have hing2 : (⟨ing.ns, ing.name⟩ : K8sObjectInfo) = ⟨x.ns, x.name⟩ := by
    rw [← hingress, heq]
    rfl
  have hns : ing.ns = x.ns := congrArg K8sObjectInfo.ns hing2
  have hnm : ing.name = x.name := congrArg K8sObjectInfo.name hing2
  have hname : op.route.name = x.ns ++ "." ++ x.name := by
    rw [heq]
    rfl
  have hdot : (".").length = 1 := rfl
  rw [hname, hns, hnm] at hlen
  simp only [String.length_append, hdot] at hlen
  omega

/-- Legacy analogue of `v1OpsAll_fresh_routes`. -/
theorem b1OpsAll_fresh_routes (hash : IngressRuleB1 → Option String)
    (flag : Bool) (l : List IngressV1beta1) (op : RouteOp)
    (h : op ∈ b1RuleOpsAll hash flag
          (sortByTs (fun ing => ing.creationTimestamp) l)
        ++ defaultOpsB1 (b1SortedDefaults l)) :
    op.fresh.routes = [] := by
  rcases List.mem_append.mp h with h2 | h2
  · obtain ⟨ing, _, rule, _, ps2, _, rp, _, used1, i1, j1, usedN, hop⟩ :=
      b1RuleOpsAll_mem hash flag _ op h2
    exact (b1PathOp_spec hash flag ing used1 i1 j1 rule rp op usedN hop).1
  · unfold defaultOpsB1 at h2
    split at h2
    · simp at h2
    · split at h2
      · simp at h2
      · simp only [List.mem_singleton] at h2
        rw [h2]
        rfl

/-- Legacy analogue of `v1_routesM_with_default`. -/
theorem b1_routesM_with_default (hash : IngressRuleB1 → Option String)
    (l : List IngressV1beta1) (flag : Bool) (d : IngressV1beta1)
    (ds : List IngressV1beta1) (hsd : b1SortedDefaults l = d :: ds)
    (b : IngressBackendB1) (hb : d.backend = some b) :
    routesM (fromIngressV1beta1 hash l flag).serviceNameToServices
      = ((b1RuleOpsAll hash flag
            (sortByTs (fun ing => ing.creationTimestamp) l)).map
          RouteOp.route : List Route)
        + {defaultRouteB1 d} := by
  have hdefops : defaultOpsB1 (b1SortedDefaults l) = [defaultOpB1 d b] := by
    rw [hsd]
    simp [defaultOpsB1, hb]
  have hchain : routesM (fromIngressV1beta1 hash l flag).serviceNameToServices
      = routesM ([] : SMap)
        + (((b1RuleOpsAll hash flag
              (sortByTs (fun ing => ing.creationTimestamp) l)
            ++ defaultOpsB1 (b1SortedDefaults l)).map
            RouteOp.route : List Route) : Multiset Route) :=
    routesM_applyOps _ [] (fun op hop => b1OpsAll_fresh_routes hash flag l op hop)
  rw [hchain, hdefops]
  have hnil : routesM ([] : SMap) = 0 := rfl
  rw [hnil, zero_add, List.map_append]
  rw [← Multiset.coe_add]
  rfl

/-- The legacy half of claim C2. -/
theorem b1_default_backend_spec (hash : IngressRuleB1 → Option String)
    (l : List IngressV1beta1) (flag : Bool) (d : IngressV1beta1)
    (ds : List IngressV1beta1) (hsd : b1SortedDefaults l = d :: ds)
    (b : IngressBackendB1) (hb : d.backend = some b) :
    Multiset.count (defaultRouteB1 d)
        (routesM (fromIngressV1beta1 hash l flag).serviceNameToServices) = 1
    ∧ (defaultRouteB1 d).paths = ["/"]
    ∧ (defaultRouteB1 d).hosts = []
    ∧ (∀ x ∈ l, x.backend.isSome = true →
        d.creationTimestamp ≤ x.creationTimestamp)
    ∧ (∃ svc, lookupS (fromIngressV1beta1 hash l flag).serviceNameToServices
          (defaultKeyB1 d b) = some svc ∧ defaultRouteB1 d ∈ svc.routes)
    ∧ (∀ x : IngressV1beta1, defaultRouteB1 x ≠ defaultRouteB1 d →
        defaultRouteB1 x ∉
          routesM (fromIngressV1beta1 hash l flag).serviceNameToServices) := by
  have hm := b1_routesM_with_default hash l flag d ds hsd b hb
  have hnotin : ∀ x : IngressV1beta1, defaultRouteB1 x ∉
      ((b1RuleOpsAll hash flag
          (sortByTs (fun ing => ing.creationTimestamp) l)).map
        RouteOp.route) := by
    intro x hmem
    obtain ⟨op, hop, heq⟩ := List.mem_map.mp hmem
    exact b1RuleOp_ne_defaultRoute hash flag _ op x hop heq
  refine ⟨?_, rfl, rfl, ?_, ?_, ?_⟩
  · rw [hm, Multiset.count_add]
    have h0 : Multiset.count (defaultRouteB1 d)
        (((b1RuleOpsAll hash flag
            (sortByTs (fun ing => ing.creationTimestamp) l)).map
          RouteOp.route : List Route) : Multiset Route) = 0 := by
      rw [Multiset.count_eq_zero]
      intro hmem
      exact hnotin d (by simpa using hmem)
    rw [h0]
    simp
  · intro x hx hsome
    have hmemS : x ∈ sortByTs (fun ing => ing.creationTimestamp) l :=
      (sortByTs_perm _ l).mem_iff.mpr hx
    have hmemF : x ∈ (sortByTs (fun ing => ing.creationTimestamp) l).filter
        (fun ing => ing.backend.isSome) :=
      List.mem_filter.mpr ⟨hmemS, by simpa using hsome⟩
    exact sortByTs_head_min _ _ d ds hsd x hmemF
  · have hdefops : defaultOpsB1 (b1SortedDefaults l) = [defaultOpB1 d b] := by
      rw [hsd]
      simp [defaultOpsB1, hb]
    have hmem : defaultOpB1 d b
        ∈ (b1RuleOpsAll hash flag
            (sortByTs (fun ing => ing.creationTimestamp) l)
          ++ defaultOpsB1 (b1SortedDefaults l)) := by
      rw [hdefops]
      simp
    obtain ⟨svc, hlk, hrt⟩ := lookupS_applyOps_mem _ _ hmem
    exact ⟨svc, hlk, hrt⟩
  · intro x hne hmem
    rw [hm] at hmem
    rcases Multiset.mem_add.mp hmem with hmem | hmem
    · exact hnotin x (by simpa using hmem)
    · exact hne (by simpa using hmem)

/-- C2: for every snapshot of one HTTP ingress kind (current or legacy) in
which at least one resource declares a default backend — i.e. the sorted
default-candidate list is nonempty, with head d, the earliest-created such
resource — the output contains the wildcard default route (paths ["/"], no
host restriction, named after d) exactly once, bound under the service key
of d's default backend; every other route comes from a rule op, and no
other resource's default materialization appears: later-created default
backends produce no route. -/
theorem c2_default_backend_earliest_wins :
    (∀ (hash : IngressRuleV1 → Option String) (l : List IngressV1)
       (flag : Bool) (d : IngressV1) (ds : List IngressV1),
      v1SortedDefaults l = d :: ds →
      ∀ b, d.defaultBackend = some b →
      (routesM (fromIngressV1 hash l flag).serviceNameToServices
        = ((v1RuleOpsAll hash flag
              (sortByTs (fun ing => ing.creationTimestamp) l)).map
            RouteOp.route : List Route)
          + {defaultRouteV1 d})
      ∧ Multiset.count (defaultRouteV1 d)
          (routesM (fromIngressV1 hash l flag).serviceNameToServices) = 1
      ∧ (defaultRouteV1 d).paths = ["/"]
      ∧ (defaultRouteV1 d).hosts = []
      ∧ (∀ x ∈ l, x.defaultBackend.isSome = true →
          d.creationTimestamp ≤ x.creationTimestamp)
      ∧ (∃ svc, lookupS (fromIngressV1 hash l flag).serviceNameToServices
            (defaultKeyV1 d b) = some svc ∧ defaultRouteV1 d ∈ svc.routes)
      ∧ (∀ x : IngressV1, defaultRouteV1 x ≠ defaultRouteV1 d →
          defaultRouteV1 x ∉
            routesM (fromIngressV1 hash l flag).serviceNameToServices))
    ∧ (∀ (hash : IngressRuleB1 → Option String) (l : List IngressV1beta1)
         (flag : Bool) (d : IngressV1beta1) (ds : List IngressV1beta1),
      b1SortedDefaults l = d :: ds →
      ∀ b, d.backend = some b →
      (routesM (fromIngressV1beta1 hash l flag).serviceNameToServices
        = ((b1RuleOpsAll hash flag
              (sortByTs (fun ing => ing.creationTimestamp) l)).map
            RouteOp.route : List Route)
          + {defaultRouteB1 d})
      ∧ Multiset.count (defaultRouteB1 d)
          (routesM (fromIngressV1beta1 hash l flag).serviceNameToServices) = 1
      ∧ (defaultRouteB1 d).paths = ["/"]
      ∧ (defaultRouteB1 d).hosts = []
      ∧ (∀ x ∈ l, x.backend.isSome = true →
          d.creationTimestamp ≤ x.creationTimestamp)
      ∧ (∃ svc, lookupS (fromIngressV1beta1 hash l flag).serviceNameToServices
            (defaultKeyB1 d b) = some svc ∧ defaultRouteB1 d ∈ svc.routes)
      ∧ (∀ x : IngressV1beta1, defaultRouteB1 x ≠ defaultRouteB1 d →
          defaultRouteB1 x ∉
            routesM (fromIngressV1beta1 hash l flag).serviceNameToServices)) := by
  constructor
  · intro hash l flag d ds hsd b hb
    obtain ⟨h1, h2, h3, h4, h5, h6⟩ :=
      v1_default_backend_spec hash l flag d ds hsd b hb
    exact ⟨v1_routesM_with_default hash l flag d ds hsd b hb,
      h1, h2, h3, h4, h5, h6⟩
  · intro hash l flag d ds hsd b hb
    obtain ⟨h1, h2, h3, h4, h5, h6⟩ :=
      b1_default_backend_spec hash l flag d ds hsd b hb
    exact ⟨b1_routesM_with_default hash l flag d ds hsd b hb,
      h1, h2, h3, h4, h5, h6⟩

/-- Concrete v1 ingress with a default backend for the C2 witness. -/
def c2Ingress : IngressV1 :=
  { ns := "ns", name := "ing", creationTimestamp := 5,
    defaultBackend := some { service := { name := "dsvc",
                                          port := { number := 8080 } } } }

/-- Witness for C2: the exactly-one-default-route count at a concrete
one-resource snapshot, both hypotheses discharged by computation. -/
theorem c2_default_backend_earliest_wins_witness :
    Multiset.count (defaultRouteV1 c2Ingress)
      (routesM (fromIngressV1 (fun _ => none) [c2Ingress]
        false).serviceNameToServices) = 1 :=
  (c2_default_backend_earliest_wins.1 (fun _ => none) [c2Ingress] false
    c2Ingress [] (by decide)
    { service := { name := "dsvc", port := { number := 8080 } } }
    (by decide)).2.1

/-! ## Claim C8 (collision suffixing of content-stable names) -/

/-- The hash making three rule paths of one v1 resource collide: the first
and third isolate to "h", the second to "h-0-2" — which is exactly the
string the third path's collision suffix will produce. -/
def c8Hash : IngressRuleV1 → Option String := fun r =>
  match r.http with
  | some [rp] =>
    if rp.path = "/p0" then some ("h")
    else if rp.path = "/p1" then some ("h-0-2")
    else if rp.path = "/p2" then some ("h")
    else some ("x")
  | _ => some ("x")

/-- One v1 resource with one rule holding the three colliding paths. -/
def c8Ingress : IngressV1 :=
  { ns := "ns", name := "ing",
    rules := [{ host := "",
                http := some
                  [{ path := "/p0",
                     backend := { service := { name := "s",
                                               port := { number := 80 } } } },
                   { path := "/p1",
                     backend := { service := { name := "s",
                                               port := { number := 80 } } } },
                   { path := "/p2",
                     backend := { service := { name := "s",
                                               port := { number := 80 } } } }] }] }

/-- C8 counterexample: the suffixed name is never re-checked against the
used set, so a collision can be left unresolved: under `c8Hash` the three
paths receive the names below — the second and third rule paths, two
distinct rules, end up with the SAME final route name
"ingressv1.ns.ing.h-0-2" (the third path's suffixed name reproduces the
second path's hash name), refuting "a collision is never left
unresolved". -/
theorem c8_counterexample_suffixed_name_collides :
    ((v1RuleOpsAll c8Hash true
        (sortByTs (fun ing => ing.creationTimestamp) [c8Ingress])).map
      (fun o => o.route.name))
      = ["ingressv1.ns.ing.h", "ingressv1.ns.ing.h-0-2",
         "ingressv1.ns.ing.h-0-2"]
    ∧ ¬ ((v1RuleOpsAll c8Hash true
        (sortByTs (fun ing => ing.creationTimestamp) [c8Ingress])).map
      (fun o => o.route.name)).Nodup := by
  exact ⟨by decide, by decide⟩

/-- C8 amended: with content-stable naming on, a computed name already in
the per-resource used set gets "-{ruleIndex}-{pathIndex}" appended, which
does differ from the clashing name; a fresh computed name is kept as is;
and in the two-rule scenario of the claim — two rule paths of one resource
hashing to the same name, that name not previously used — the two final
names are distinct.  The suffixed name itself is not re-checked, so
uniqueness holds only when it is fresh (see the counterexample), and the
used set is per resource, not per pass. -/
theorem c8_collision_suffix_forces_distinct_names :
    (∀ (hash : IngressRuleV1 → Option String) (ing : IngressV1)
       (used usedN : List String) (i j : Nat) (rule : IngressRuleV1)
       (rp : HTTPIngressPathV1) (op : RouteOp) (hs : String),
      hash { rule with http := some [rp] } = some hs →
      (ingressV1RoutePfxOf ing ++ hs) ∈ used →
      v1PathOp hash true ing used i rule j rp = (some op, usedN) →
      op.route.name = ingressV1RoutePfxOf ing ++ hs ++ "-" ++ toString i
          ++ "-" ++ toString j
        ∧ op.route.name ≠ ingressV1RoutePfxOf ing ++ hs
        ∧ usedN = op.route.name :: used)
    ∧ (∀ (hash : IngressRuleV1 → Option String) (ing : IngressV1)
         (used usedN : List String) (i j : Nat) (rule : IngressRuleV1)
         (rp : HTTPIngressPathV1) (op : RouteOp) (hs : String),
        hash { rule with http := some [rp] } = some hs →
        (ingressV1RoutePfxOf ing ++ hs) ∉ used →
        v1PathOp hash true ing used i rule j rp = (some op, usedN) →
        op.route.name = ingressV1RoutePfxOf ing ++ hs
          ∧ usedN = op.route.name :: used)
    ∧ (∀ (hash : IngressRuleV1 → Option String) (ing : IngressV1)
         (used usedA usedB : List String) (i j : Nat) (rule : IngressRuleV1)
         (rpA rpB : HTTPIngressPathV1) (opA opB : RouteOp) (hs : String),
        hash { rule with http := some [rpA] } = some hs →
        hash { rule with http := some [rpB] } = some hs →
        (ingressV1RoutePfxOf ing ++ hs) ∉ used →
        v1PathOp hash true ing used i rule j rpA = (some opA, usedA) →
        v1PathOp hash true ing usedA i rule (j + 1) rpB = (some opB, usedB) →
        opA.route.name = ingressV1RoutePfxOf ing ++ hs
          ∧ opB.route.name = ingressV1RoutePfxOf ing ++ hs ++ "-"
              ++ toString i ++ "-" ++ toString (j + 1)
          ∧ opA.route.name ≠ opB.route.name
          ∧ (v1PathsLoop hash true ing used i rule j [rpA, rpB]).1
              = [opA, opB]) := by
  have hsuffix_ne : ∀ (base ti tj : String),
      base ++ "-" ++ ti ++ "-" ++ tj ≠ base := by
    intro base ti tj heq
    have hlen := congrArg String.length heq
    have hdash : ("-").length = 1 := rfl
    simp only [String.length_append, hdash] at hlen
    omega
  have ha : ∀ (hash : IngressRuleV1 → Option String) (ing : IngressV1)
      (used usedN : List String) (i j : Nat) (rule : IngressRuleV1)
      (rp : HTTPIngressPathV1) (op : RouteOp) (hs : String),
      hash { rule with http := some [rp] } = some hs →
      (ingressV1RoutePfxOf ing ++ hs) ∈ used →
      v1PathOp hash true ing used i rule j rp = (some op, usedN) →
      op.route.name = ingressV1RoutePfxOf ing ++ hs ++ "-" ++ toString i
          ++ "-" ++ toString j
        ∧ op.route.name ≠ ingressV1RoutePfxOf ing ++ hs
        ∧ usedN = op.route.name :: used := by
    intro hash ing used usedN i j rule rp op hs hh hu hop
    by_cases hds : containsDoubleSlash rp.path = true
    · simp [v1PathOp, hds] at hop
    · cases hpk : pathsFromK8s rp.path (rp.pathType.getD ("ImplementationSpecific")) with
      | error e => simp [v1PathOp, hds, hpk] at hop
      | ok ps =>
        simp only [v1PathOp, hds, hpk, hh, hu, if_true, if_false,
          Bool.false_eq_true] at hop
        obtain ⟨h1, h2⟩ := Prod.mk.injEq .. ▸ hop
        obtain rfl := (Option.some.injEq .. ▸ h1).symm
        exact ⟨rfl, hsuffix_ne _ _ _, h2.symm⟩
  have hb : ∀ (hash : IngressRuleV1 → Option String) (ing : IngressV1)
      (used usedN : List String) (i j : Nat) (rule : IngressRuleV1)
      (rp : HTTPIngressPathV1) (op : RouteOp) (hs : String),
      hash { rule with http := some [rp] } = some hs →
      (ingressV1RoutePfxOf ing ++ hs) ∉ used →
      v1PathOp hash true ing used i rule j rp = (some op, usedN) →
      op.route.name = ingressV1RoutePfxOf ing ++ hs
        ∧ usedN = op.route.name :: used := by
    intro hash ing used usedN i j rule rp op hs hh hu hop
    by_cases hds : containsDoubleSlash rp.path = true
    · simp [v1PathOp, hds] at hop
    · cases hpk : pathsFromK8s rp.path (rp.pathType.getD ("ImplementationSpecific")) with
      | error e => simp [v1PathOp, hds, hpk] at hop
      | ok ps =>
        simp only [v1PathOp, hds, hpk, hh, hu, if_true, if_false,
          Bool.false_eq_true] at hop
        obtain ⟨h1, h2⟩ := Prod.mk.injEq .. ▸ hop
        obtain rfl := (Option.some.injEq .. ▸ h1).symm
        exact ⟨rfl, h2.symm⟩
  refine ⟨ha, hb, ?_⟩
  intro hash ing used usedA usedB i j rule rpA rpB opA opB hs hhA hhB hu
    hopA hopB
  obtain ⟨hnameA, husedA⟩ := hb hash ing used usedA i j rule rpA opA hs hhA hu hopA
  have huB : (ingressV1RoutePfxOf ing ++ hs) ∈ usedA := by
    rw [husedA, hnameA]
    simp
  obtain ⟨hnameB, hneB, husedB⟩ :=
    ha hash ing usedA usedB i (j + 1) rule rpB opB hs hhB huB hopB
  refine ⟨hnameA, hnameB, ?_, ?_⟩
  · rw [hnameA]
    intro heq
    exact hneB heq.symm
  · show ((v1PathOp hash true ing used i rule j rpA).1.toList
        ++ ((v1PathsLoop hash true ing
              (v1PathOp hash true ing used i rule j rpA).2 i rule (j + 1)
              [rpB]).1), _).1 = [opA, opB]
    rw [hopA]
    show opA :: (v1PathsLoop hash true ing usedA i rule (j + 1) [rpB]).1 = [opA, opB]
    show opA :: ((v1PathOp hash true ing usedA i rule (j + 1) rpB).1.toList
        ++ (v1PathsLoop hash true ing
              (v1PathOp hash true ing usedA i rule (j + 1) rpB).2 i rule
              (j + 2) []).1) = [opA, opB]
    rw [hopB]
    rfl

/-- Shared fresh service of the two C8-witness path ops. -/
def c8wFresh : Service :=
  { service := { name := "n.s.pnum-80", host := "s.n.80.svc", port := 80,
                 protocol := "http", path := some "/",
                 connectTimeout := some 60000, readTimeout := some 60000,
                 writeTimeout := some 60000, retries := some 5 },
    ns := "n",
    backend := { name := "s", port := { mode := .byNumber, number := 80 } } }

/-- Route fields shared by the two C8-witness ops. -/
def c8wRoute (nm : String) (p : String) : Route :=
  { ingress := ⟨"n", "i"⟩, name := nm, paths := [p],
    stripPath := some false, preserveHost := some true,
    protocols := ["http", "https"], regexPriority := some 100,
    requestBuffering := some true, responseBuffering := some true }

/-- Rule paths of the C8 witness. -/
def c8wRpA : HTTPIngressPathV1 :=
  { path := "/a",
    backend := { service := { name := "s", port := { number := 80 } } } }

def c8wRpB : HTTPIngressPathV1 :=
  { path := "/b",
    backend := { service := { name := "s", port := { number := 80 } } } }

def c8wRule : IngressRuleV1 := { host := "", http := some [c8wRpA, c8wRpB] }

/-- Witness for C8 amended: the two-rule collision clause applied at a
concrete resource with the constant hash, all five hypotheses discharged by
computation; the two final names "ingressv1.n.i.h" and
"ingressv1.n.i.h-0-1" are distinct. -/
theorem c8_collision_suffix_forces_distinct_names_witness :
    ({ key := "n.s.pnum-80", fresh := c8wFresh,
       route := c8wRoute ("ingressv1.n.i.h") ("/a") } : RouteOp).route.name
        = ingressV1RoutePfxOf { ns := "n", name := "i" } ++ "h"
    ∧ ({ key := "n.s.pnum-80", fresh := c8wFresh,
         route := c8wRoute ("ingressv1.n.i.h-0-1") ("/b") } : RouteOp).route.name
        = ingressV1RoutePfxOf { ns := "n", name := "i" } ++ "h" ++ "-"
            ++ toString 0 ++ "-" ++ toString (0 + 1)
    ∧ ({ key := "n.s.pnum-80", fresh := c8wFresh,
         route := c8wRoute ("ingressv1.n.i.h") ("/a") } : RouteOp).route.name
        ≠ ({ key := "n.s.pnum-80", fresh := c8wFresh,
             route := c8wRoute ("ingressv1.n.i.h-0-1") ("/b") } : RouteOp).route.name
    ∧ (v1PathsLoop (fun _ => some ("h")) true { ns := "n", name := "i" } []
          0 c8wRule 0 [c8wRpA, c8wRpB]).1
        = [{ key := "n.s.pnum-80", fresh := c8wFresh,
             route := c8wRoute ("ingressv1.n.i.h") ("/a") },
           { key := "n.s.pnum-80", fresh := c8wFresh,
             route := c8wRoute ("ingressv1.n.i.h-0-1") ("/b") }] :=
  c8_collision_suffix_forces_distinct_names.2.2 (fun _ => some ("h"))
    { ns := "n", name := "i" } [] ["ingressv1.n.i.h"]
    ["ingressv1.n.i.h-0-1", "ingressv1.n.i.h"] 0 0 c8wRule c8wRpA c8wRpB
    { key := "n.s.pnum-80", fresh := c8wFresh,
      route := c8wRoute ("ingressv1.n.i.h") ("/a") }
    { key := "n.s.pnum-80", fresh := c8wFresh,
      route := c8wRoute ("ingressv1.n.i.h-0-1") ("/b") }
    ("h") (by decide) (by decide) (by decide) (by decide) (by decide)

end KIC
